import Mathlib

/-!
# Verification of the projectM RunPod front ends

A shallow embedding, in Lean 4, of the logic of `runpod_handler.py` and
`runpod_pod_server.py`: URL normalisation for cloud-storage share links,
the HTML redirect extractor, the bounded remote-audio fetch loop, the
command builder, the process-outcome classifier and the result assembler.
External collaborators (the Python standard library's `urllib.parse`
helpers, `str`/`float` coercions, base64) are modelled explicitly; each
model carries a doc comment naming what it models and which corner it
leaves out (percent-escaping, unicode case folding), so that every theorem
quantifies only over inputs on which the model and the real library agree.

The file is organised as: definitions (§1), library lemmas and sanity
checks (§2), and the claim theorems with their witnesses (§3).
-/

set_option maxRecDepth 10000

namespace ProjectM

/-! # §1 Definitions -/

/-! ## Generic list/string helpers -/

instance {ε α : Type} [DecidableEq ε] [DecidableEq α] :
    DecidableEq (Except ε α) := fun x y =>
  match x, y with
  | .ok a, .ok b =>
    if h : a = b then isTrue (by rw [h]) else isFalse (by simp [h])
  | .error a, .error b =>
    if h : a = b then isTrue (by rw [h]) else isFalse (by simp [h])
  | .ok _, .error _ => isFalse (by simp)
  | .error _, .ok _ => isFalse (by simp)

/-- Double-quote character, written by code point to keep literals simple. -/
def quoteD : Char := Char.ofNat 34

/-- Single-quote character, written by code point to keep literals simple. -/
def quoteS : Char := Char.ofNat 39

/-- Split a character list at the first occurrence of `sep`:
`some (before, after)` when `sep` occurs, `none` otherwise.
Models Python's `str.split(sep, 1)` / `str.find(sep)`. -/
def splitFirst (sep : Char) : List Char → Option (List Char × List Char)
  | [] => none
  | c :: rest =>
    if c = sep then some ([], rest)
    else match splitFirst sep rest with
      | some (a, b) => some (c :: a, b)
      | none => none

/-- Split a character list at the last occurrence of `sep`. -/
def splitLast (sep : Char) (l : List Char) : Option (List Char × List Char) :=
  match splitFirst sep l.reverse with
  | some (rb, ra) => some (ra.reverse, rb.reverse)
  | none => none

/-- Split a character list on every occurrence of `sep`.
Models Python's `str.split(sep)`; in particular the empty list yields `[[]]`. -/
def splitAll (sep : Char) : List Char → List (List Char)
  | [] => [[]]
  | c :: rest =>
    if c = sep then [] :: splitAll sep rest
    else match splitAll sep rest with
      | h :: t => (c :: h) :: t
      | [] => [[c]]

/-- Join character lists with a separator character (inverse of `splitAll`). -/
def joinSep (sep : Char) : List (List Char) → List Char
  | [] => []
  | [x] => x
  | x :: y :: t => x ++ sep :: joinSep sep (y :: t)

/-- Whether `pat` occurs as a contiguous sublist of `l`
(models Python's `in` operator on strings). -/
def occursL (pat : List Char) : List Char → Bool
  | [] => pat.isPrefixOf []
  | c :: rest => pat.isPrefixOf (c :: rest) || occursL pat rest

/-- Substring test on strings, models Python's `pat in s`. -/
def occursS (pat s : String) : Bool := occursL pat.data s.data

/-- ASCII lowercase on a string; models Python's `str.lower()` (which also
folds non-ASCII letters, unused here). -/
def toLowerS (s : String) : String := String.mk (s.data.map Char.toLower)

/-! ## Models of Python value coercions (`str`, `float`, truthiness) -/

/-- Model of Python's `str(n)` for natural numbers: decimal digits. -/
def pyStrNatAux : Nat → Nat → List Char
  | 0, _ => []
  | _, 0 => []
  | fuel + 1, n + 1 =>
    pyStrNatAux fuel ((n + 1) / 10) ++ [Char.ofNat (48 + (n + 1) % 10)]

/-- Model of Python's `str(n)` for a natural number. -/
def pyStrNat (n : Nat) : String :=
  if n = 0 then "0" else String.mk (pyStrNatAux (n + 1) n)

/-- Model of Python's `str(n)` for an integer. -/
def pyStrInt : Int → String
  | .ofNat m => pyStrNat m
  | .negSucc m => "-" ++ pyStrNat (m + 1)

/-- A loosely-typed Python value, as found in a JSON job payload. -/
inductive PyVal where
  | vnone
  | vbool (b : Bool)
  | vint (n : Int)
  | vfloat (q : Rat)
  | vstr (s : String)
deriving DecidableEq

/-- Model of Python truthiness for `PyVal`. -/
def truthy : PyVal → Bool
  | .vnone => false
  | .vbool b => b
  | .vint n => n != 0
  | .vfloat q => q != 0
  | .vstr s => s != ""

/-- Parse a run of decimal digits; helper for `parsePyFloat`. -/
def parseDigits (l : List Char) : Option Nat :=
  if l.isEmpty then none
  else if l.all Char.isDigit then
    some (l.foldl (fun acc c => acc * 10 + (c.toNat - 48)) 0)
  else none

/-- Model of Python's `float(s)` string parsing, restricted to
optionally-signed decimal literals `[+-]digits[.digits]` (exponents,
`inf`/`nan`, underscores and surrounding whitespace are not modelled;
no input used in this development needs them). -/
def parsePyFloat (s : String) : Option Rat :=
  let l := s.data
  let (sign, rest) :=
    match l with
    | '-' :: r => ((-1 : Int), r)
    | '+' :: r => ((1 : Int), r)
    | r => ((1 : Int), r)
  match splitFirst '.' rest with
  | some (ip, fp) =>
    if ip.isEmpty ∧ fp.isEmpty then none
    else if (ip.isEmpty ∨ (ip.all Char.isDigit)) ∧ (fp.isEmpty ∨ (fp.all Char.isDigit)) ∧ (ip.all Char.isDigit ∨ fp.all Char.isDigit) then
      let ipv := (parseDigits ip).getD 0
      let fpv := (parseDigits fp).getD 0
      some (sign * (ipv + (fpv : Rat) / (10 ^ fp.length)))
    else none
  | none =>
    match parseDigits rest with
    | some v => some (sign * v)
    | none => none

/-- Model of Python's `float(x)` coercion on a loosely-typed value. -/
def pyFloat : PyVal → Except String Rat
  | .vnone => .error "TypeError: float() argument must not be None"
  | .vbool b => .ok (if b then 1 else 0)
  | .vint n => .ok n
  | .vfloat q => .ok q
  | .vstr s =>
    match parsePyFloat s with
    | some q => .ok q
    | none => .error ("ValueError: could not convert string to float: " ++ s)

/-! ## Model of `urllib.parse` (urlparse / urlunparse / parse_qsl / urlencode)

Percent-escaping (`quote_plus` beyond the space-to-plus rule, `unquote`
beyond the plus-to-space rule) is not modelled; every theorem about URL
rewriting therefore carries well-formedness hypotheses restricting keys and
values to characters on which the model and `urllib.parse` agree. -/

/-- The six components produced by `urllib.parse.urlparse`. -/
structure UrlParts where
  scheme : String
  netloc : String
  path : String
  params : String
  query : String
  fragment : String
deriving DecidableEq

/-- Characters allowed after the first character of a URL scheme
(`urllib.parse.scheme_chars`). -/
def schemeChar (c : Char) : Bool := c.isAlphanum || c = '+' || c = '-' || c = '.'

/-- Scheme-splitting step of `urllib.parse.urlsplit`: the text before the
first `:` must start with a letter and continue with scheme characters. -/
def splitSchemeM (l : List Char) : String × List Char :=
  match splitFirst ':' l with
  | some (before, after) =>
    match before with
    | [] => ("", l)
    | c0 :: restB =>
      if c0.isAlpha ∧ restB.all schemeChar then
        (String.mk (before.map Char.toLower), after)
      else ("", l)
  | none => ("", l)

/-- Netloc-splitting step of `urllib.parse.urlsplit`: after a leading `//`,
the netloc extends to the first `/`, `?` or `#`. -/
def splitNetlocM (l : List Char) : String × List Char :=
  match l with
  | '/' :: '/' :: rest =>
    let keep := fun (c : Char) => c ≠ '/' ∧ c ≠ '?' ∧ c ≠ '#'
    (String.mk (rest.takeWhile keep), rest.dropWhile keep)
  | _ => ("", l)

/-- Schemes for which `urllib.parse.urlparse` splits `;params` off the path
(`urllib.parse.uses_params`). -/
def usesParams : List String :=
  ["", "ftp", "hdl", "prospero", "http", "imap", "https", "shttp", "rtsp",
   "rtspu", "sip", "sips", "mms", "sftp", "tel"]

/-- Params-splitting of `urllib.parse._splitparams`: split at the first `;`
at or after the last `/` of the path. -/
def splitParamsM (pathCs : List Char) : List Char × List Char :=
  match splitLast '/' pathCs with
  | some (a, b) =>
    match splitFirst ';' b with
    | some (b1, b2) => (a ++ '/' :: b1, b2)
    | none => (pathCs, [])
  | none =>
    match splitFirst ';' pathCs with
    | some (a, b) => (a, b)
    | none => (pathCs, [])

/-- Fragment-splitting step of `urllib.parse.urlsplit`: everything after
the first `#`. -/
def splitHashM (l : List Char) : List Char × String :=
  match splitFirst '#' l with
  | some (a, b) => (a, String.mk b)
  | none => (l, "")

/-- Query-splitting step of `urllib.parse.urlsplit`: everything after the
first `?` (the fragment is already gone). -/
def splitQueryM (l : List Char) : List Char × String :=
  match splitFirst '?' l with
  | some (a, b) => (a, String.mk b)
  | none => (l, "")

/-- Params stage of `urllib.parse.urlparse`: split `;params` off the path
only for schemes in `uses_params` and only when a `;` is present. -/
def paramsStage (scheme : String) (pathCs : List Char) :
    List Char × List Char :=
  if scheme ∈ usesParams ∧ pathCs.contains ';' then splitParamsM pathCs
  else (pathCs, [])

/-- Model of `urllib.parse.urlparse` (control-character stripping and IPv6
bracket validation omitted). Split order follows CPython: scheme, netloc,
fragment, query, then params. -/
def urlparseM (url : String) : UrlParts :=
  let s1 := splitSchemeM url.data
  let s2 := splitNetlocM s1.2
  let s3 := splitHashM s2.2
  let s4 := splitQueryM s3.1
  let s5 := paramsStage s1.1 s4.1
  ⟨s1.1, s2.1, String.mk s5.1, String.mk s5.2, s4.2, s3.2⟩

/-- Model of `urllib.parse.urlunsplit`. -/
def urlunsplitM (scheme netloc : String) (url0 : List Char)
    (query fragment : String) : String :=
  let url1 :=
    if netloc ≠ "" ∨ (url0 ≠ [] ∧ url0.take 2 = ['/', '/']) then
      let u := if url0 ≠ [] ∧ url0.head? ≠ some '/' then '/' :: url0 else url0
      '/' :: '/' :: netloc.data ++ u
    else url0
  let url2 := if scheme ≠ "" then scheme.data ++ ':' :: url1 else url1
  let url3 := if query ≠ "" then url2 ++ '?' :: query.data else url2
  let url4 := if fragment ≠ "" then url3 ++ '#' :: fragment.data else url3
  String.mk url4

/-- Model of `urllib.parse.urlunparse`. -/
def urlunparseM (p : UrlParts) : String :=
  let url0 :=
    if p.params ≠ "" then p.path.data ++ ';' :: p.params.data else p.path.data
  urlunsplitM p.scheme p.netloc url0 p.query p.fragment

/-- Plus-for-space encoding of `urllib.parse.quote_plus`
(percent-escaping omitted). -/
def quotePlus (s : String) : List Char :=
  s.data.map fun c => if c = ' ' then '+' else c

/-- Space-for-plus decoding of `urllib.parse.unquote_plus`
(percent-decoding omitted). -/
def unquotePlus (l : List Char) : String :=
  String.mk (l.map fun c => if c = '+' then ' ' else c)

/-- Model of `urllib.parse.parse_qsl(qs, keep_blank_values=True)`:
split on `&`, drop empty fields, split each field at the first `=`
(a field with no `=` keeps its name and gets an empty value). -/
def parseQslM (qs : List Char) : List (String × String) :=
  (splitAll '&' qs).filterMap fun nv =>
    if nv.isEmpty then none
    else
      match splitFirst '=' nv with
      | some (n, v) => some (unquotePlus n, unquotePlus v)
      | none => some (unquotePlus nv, "")

/-- Model of `urllib.parse.urlencode` on an association list
(iteration order is insertion order, as for a Python `dict`). -/
def urlencodeM (l : List (String × String)) : String :=
  String.mk (joinSep '&' (l.map fun kv => quotePlus kv.1 ++ '=' :: quotePlus kv.2))

/-- Insert-or-update on an association list, keeping the position of an
existing key: the semantics of `d[k] = v` on a Python `dict`. -/
def dictSet : List (String × String) → String → String → List (String × String)
  | [], k, v => [(k, v)]
  | (k', v') :: t, k, v =>
    if k' = k then (k', v) :: t else (k', v') :: dictSet t k v

/-- Collapse a key-value list into a `dict`: first occurrence keeps its
position, later occurrences overwrite the value (`dict(pairs)` in Python). -/
def dictOfPairs (l : List (String × String)) : List (String × String) :=
  l.foldl (fun acc kv => dictSet acc kv.1 kv.2) []

/-- Lookup in an association list (`k in d` / `d[k]`). -/
def lookupD (l : List (String × String)) (k : String) : Option String :=
  match l with
  | [] => none
  | (k', v) :: t => if k' = k then some v else lookupD t k

/-! ## The URL Normalizer (`_normalize_storage_url` in `runpod_handler.py`) -/

/-- The Google-Drive `file_id` variable of `_normalize_storage_url`
(runpod_handler.py:80-85): from a `/file/d/{id}/...` path when present, else
from the `id` query parameter.  The source's `if file_id:` truthiness test
(line 86) is applied at the use site, so a blank id (`some ""`) is possible
here and rejected there. -/
def googleFileId (p : UrlParts) (q : List (String × String)) : Option String :=
  let pathParts := ((splitAll '/' p.path.data).map String.mk).filter (· ≠ "")
  if pathParts.length ≥ 3 ∧ pathParts.get? 0 = some "file" ∧ pathParts.get? 1 = some "d" then
    pathParts.get? 2
  else lookupD q "id"

/-- Embedding of `_normalize_storage_url` (runpod_handler.py:66-94): coerce
known providers (Dropbox/OneDrive/Google Drive) into direct-download URLs. -/
def normalize_storage_url (url : String) : String :=
  let p := urlparseM url
  let host := toLowerS p.netloc
  let q := dictOfPairs (parseQslM p.query.data)
  if occursS "dropbox.com" host then
    urlunparseM { p with netloc := "www.dropbox.com",
                         query := urlencodeM (dictSet q "dl" "1") }
  else if occursS "onedrive" host || occursS "1drv.ms" host
      || occursS "sharepoint.com" host then
    urlunparseM { p with query := urlencodeM (dictSet q "download" "1") }
  else if occursS "drive.google.com" host || occursS "docs.google.com" host then
    match googleFileId p q with
    | some fid =>
      -- `if file_id:` — a blank id is falsy and skips the rewrite
      if fid ≠ "" then
        urlunparseM { p with scheme := "https", netloc := "drive.google.com",
                             path := "/uc",
                             query := urlencodeM [("export", "download"), ("id", fid)] }
      else urlunparseM p
    | none => urlunparseM p
  else urlunparseM p

/-! ## The HTML Redirect Extractor (`_extract_direct_audio_url`)

Each regular expression of the source is embedded as a hand-rolled matcher
over `List Char` with `re.search` semantics (leftmost match, greedy
quantifiers, `re.IGNORECASE` where the source sets it).  The `_clean`
post-processing step (`html.unescape` followed by a best-effort
`unicode_escape` pass) is a standard-library collaborator and is passed in
as an opaque `clean : String → String` parameter. -/

/-- Case-insensitive character comparison (`re.IGNORECASE`). -/
def lowEq (a b : Char) : Bool := a.toLower = b.toLower

/-- Case-insensitively strip a literal from the front, returning the rest. -/
def matchLitCI : List Char → List Char → Option (List Char)
  | [], rest => some rest
  | _ :: _, [] => none
  | p :: ps, c :: cs => if lowEq p c then matchLitCI ps cs else none

/-- Case-sensitively strip a literal from the front, returning the rest. -/
def matchLit : List Char → List Char → Option (List Char)
  | [], rest => some rest
  | _ :: _, [] => none
  | p :: ps, c :: cs => if p = c then matchLit ps cs else none

/-- The six characters matched by the regex class `\s` on ASCII text. -/
def isPySpace (c : Char) : Bool :=
  c = ' ' || c = '\t' || c = '\n' || c = '\x0d' || c = '\x0b' || c = '\x0c'

/-- Greedy `p+`: at least one character satisfying `p`, returning the
matched run and the rest. -/
def takeWhile1 (p : Char → Bool) (cs : List Char) :
    Option (List Char × List Char) :=
  match cs.takeWhile p with
  | [] => none
  | run => some (run, cs.drop run.length)

/-- Whether a character is one of the two regex quote-class members. -/
def isQuote (c : Char) : Bool := c = quoteS || c = quoteD

/-- Continuation of pattern 1 after the optional group:
matches its tail portion of whitespace, open paren, whitespace, a quote,
one-plus non-quote characters (the capture) and a closing quote. -/
def p1Tail (cs : List Char) : Option (List Char) :=
  match cs.dropWhile isPySpace with
  | '(' :: cs1 =>
    match cs1.dropWhile isPySpace with
    | [] => none
    | q :: cs2 =>
      if isQuote q then
        match takeWhile1 (fun c => !isQuote c) cs2 with
        | some (cap, rest) =>
          match rest with
          | q2 :: _ => if isQuote q2 then some cap else none
          | [] => none
        | none => none
      else none
  | _ => none

/-- Matcher for the first source pattern, at the current position:
a `window.location`/`.replace`/`.href` script redirect with a quoted URL. -/
def p1At (cs : List Char) : Option (List Char) :=
  match matchLitCI "window.location".data cs with
  | none => none
  | some rest =>
    let opt :=
      match matchLitCI ".replace".data rest with
      | some r => some r
      | none => matchLitCI ".href".data rest
    match opt with
    | some r2 =>
      match p1Tail r2 with
      | some cap => some cap
      | none => p1Tail rest
    | none => p1Tail rest

/-- Matcher for the second source pattern, at the current position:
a meta-refresh attribute `content = "<digits>; url=<target>"`. -/
def p2At (cs : List Char) : Option (List Char) :=
  match matchLitCI "content".data cs with
  | none => none
  | some r1 =>
    match (r1.dropWhile isPySpace) with
    | '=' :: r2 =>
      match (r2.dropWhile isPySpace) with
      | [] => none
      | q :: r3 =>
        if q = quoteD then
          match takeWhile1 Char.isDigit r3 with
          | some (_, r4) =>
            match r4 with
            | ';' :: r5 =>
              match matchLitCI "url=".data (r5.dropWhile isPySpace) with
              | some r6 =>
                match takeWhile1 (fun c => c ≠ quoteD) r6 with
                | some (cap, rest) =>
                  match rest with
                  | q2 :: _ => if q2 = quoteD then some cap else none
                  | [] => none
                | none => none
              | none => none
            | _ => none
          | none => none
        else none
    | _ => none

/-- Matcher for the first Google pattern:
`href="https://drive.google.com/uc?..."` (the capture starts at `https`). -/
def g1At (cs : List Char) : Option (List Char) :=
  match matchLitCI ("href=".data ++ [quoteD]) cs with
  | none => none
  | some r1 =>
    let pre := "https://drive.google.com/uc?".data
    match matchLitCI pre r1 with
    | none => none
    | some r2 =>
      match takeWhile1 (fun c => c ≠ quoteD) r2 with
      | some (body, rest) =>
        match rest with
        | q2 :: _ =>
          if q2 = quoteD then some (r1.take pre.length ++ body) else none
        | [] => none
      | none => none

/-- Matcher for the second Google pattern: a JSON `"downloadUrl":"https:..."`
field (the capture starts at `https:`). -/
def g2At (cs : List Char) : Option (List Char) :=
  match matchLitCI ([quoteD] ++ "downloadUrl".data ++ [quoteD, ':', quoteD]) cs with
  | none => none
  | some r1 =>
    let pre := "https:".data
    match matchLitCI pre r1 with
    | none => none
    | some r2 =>
      match takeWhile1 (fun c => c ≠ quoteD) r2 with
      | some (body, rest) =>
        match rest with
        | q2 :: _ =>
          if q2 = quoteD then some (r1.take pre.length ++ body) else none
        | [] => none
      | none => none

/-- Whether `pat` occurs case-insensitively inside `l` with at least one
character strictly before it and at least one strictly after it. -/
def hasInnerCI (pat : List Char) : List Char → Bool
  | [] => false
  | [_] => false
  | _ :: c :: rest =>
    (match matchLitCI pat (c :: rest) with
     | some r => !r.isEmpty
     | none => false)
    || hasInnerCI pat (c :: rest)

/-- Matcher for the third Google pattern:
`data-url="https://...googleusercontent.com..."`. -/
def g3At (cs : List Char) : Option (List Char) :=
  match matchLitCI ("data-url=".data ++ [quoteD]) cs with
  | none => none
  | some r1 =>
    let span := r1.takeWhile (fun c => c ≠ quoteD)
    match r1.drop span.length with
    | q2 :: _ =>
      if q2 = quoteD then
        match matchLitCI "https://".data span with
        | some mid =>
          -- both `[^"]+` runs around the host must be nonempty, so the host
          -- occurs strictly inside `mid`
          if hasInnerCI "googleusercontent.com".data mid then some span
          else none
        | none => none
      else none
    | [] => none

/-- Matcher for a `name=["']<field>["'] value=["']<token>["']` form field
of the Google-Drive confirm page (`_maybe_build_drive_confirm_url`). -/
def fieldAt (fieldName : List Char) (cs : List Char) : Option (List Char) :=
  match matchLitCI "name=".data cs with
  | none => none
  | some r1 =>
    match r1 with
    | q1 :: r2 =>
      if isQuote q1 then
        match matchLitCI fieldName r2 with
        | none => none
        | some r3 =>
          match r3 with
          | q2 :: r4 =>
            if isQuote q2 then
              match takeWhile1 isPySpace r4 with
              | some (_, r5) =>
                match matchLitCI "value=".data r5 with
                | none => none
                | some r6 =>
                  match r6 with
                  | q3 :: r7 =>
                    if isQuote q3 then
                      match takeWhile1 (fun c => !isQuote c) r7 with
                      | some (cap, rest) =>
                        match rest with
                        | q4 :: _ => if isQuote q4 then some cap else none
                        | [] => none
                      | none => none
                    else none
                  | [] => none
              | none => none
            else none
          | [] => none
      else none
    | [] => none

/-- Search as `re.search` does: try the matcher at every position, leftmost first. -/
def searchA (m : List Char → Option (List Char)) : List Char → Option (List Char)
  | [] => m []
  | c :: cs =>
    match m (c :: cs) with
    | some r => some r
    | none => searchA m cs

/-- Matcher for one bare URL `https?://` followed by one-plus characters
that are neither whitespace nor quotes (case-sensitive, as the source
compiles this one without `re.IGNORECASE`). -/
def bareAt (cs : List Char) : Option (List Char × List Char) :=
  match matchLit "http".data cs with
  | none => none
  | some r1 =>
    let afterScheme :=
      match matchLit "s://".data r1 with
      | some r2 => some r2
      | none => matchLit "://".data r1
    match afterScheme with
    | none => none
    | some r2 =>
      match takeWhile1 (fun c => !isPySpace c ∧ !isQuote c) r2 with
      | some (body, rest) =>
        some (cs.take (cs.length - r2.length) ++ body, rest)
      | none => none

/-- Model of `re.findall` for the bare-URL pattern: all non-overlapping matches,
left to right (fuel-indexed; the fuel is always the text length plus one,
which dominates the scan). -/
def findBareAux : Nat → List Char → List (List Char)
  | 0, _ => []
  | _ + 1, [] => []
  | fuel + 1, c :: cs =>
    match bareAt (c :: cs) with
    | some (cap, rest) => cap :: findBareAux fuel rest
    | none => findBareAux fuel cs

/-- All bare URLs of the text, in order of occurrence. -/
def findBareUrls (cs : List Char) : List (List Char) :=
  findBareAux (cs.length + 1) cs

/-- The fixed hint substrings `DIRECT_AUDIO_HINTS` of the source. -/
def DIRECT_AUDIO_HINTS : List String :=
  ["download.aspx", ".files.1drv.com", ".download.", ".mp3", ".wav",
   ".flac", ".m4a", "drive.google.com/uc", "googleusercontent.com"]

/-- The fallback scan of the extractor: clean each bare URL and return the
first whose lowercase form contains a hint substring. -/
def firstHint (clean : String → String) : List (List Char) → Option String
  | [] => none
  | c :: rest =>
    let cleaned := clean (String.mk c)
    if DIRECT_AUDIO_HINTS.any (fun h => occursS h (toLowerS cleaned)) then
      some cleaned
    else firstHint clean rest

/-- Embedding of `_extract_direct_audio_url` (runpod_handler.py:97-145):
try the script-redirect and meta-refresh patterns, then the three Google
patterns, then the synthesized confirm-download URL, then the bare-URL
fallback — first hit wins. -/
def extract_direct_audio_url (clean : String → String) (htmlText : String) :
    Option String :=
  let cs := htmlText.data
  match searchA p1At cs with
  | some cap => some (clean (String.mk cap))
  | none =>
  match searchA p2At cs with
  | some cap => some (clean (String.mk cap))
  | none =>
  match searchA g1At cs with
  | some cap => some (clean (String.mk cap))
  | none =>
  match searchA g2At cs with
  | some cap => some (clean (String.mk cap))
  | none =>
  match searchA g3At cs with
  | some cap => some (clean (String.mk cap))
  | none =>
  match searchA (fieldAt "confirm".data) cs, searchA (fieldAt "id".data) cs with
  | some ctok, some itok =>
    some ("https://drive.google.com/uc?" ++
      urlencodeM [("export", "download"),
                  ("confirm", clean (String.mk ctok)),
                  ("id", clean (String.mk itok))])
  | _, _ => firstHint clean (findBareUrls cs)

/-! ## The Audio Fetcher (`_download_from_url`)

The network is modelled as a function from URL to response; the byte-to-text
decoding (`bytes.decode("utf-8", errors="ignore")`) is an opaque parameter.
The state of the destination file and the sequence of file operations are
returned explicitly. -/

/-- An HTTP response as seen by `_download_from_url`: status code,
`Content-Type` header (already defaulted to `""`) and body bytes. -/
structure HttpResponse where
  status : Nat
  contentType : String
  body : List Nat
deriving DecidableEq

/-- Operations performed on the destination file. -/
inductive FileEvent where
  | wrote (size : Nat)
  | unlinked
deriving DecidableEq

/-- How one call to `_download_from_url` ends. -/
inductive DLOutcome where
  /-- normal return: the audio was streamed to the destination -/
  | ok
  /-- A `ConversionError` was raised with this message -/
  | convError (msg : String)
  /-- The call `response.raise_for_status()` raised `requests.HTTPError` -/
  | httpError (status : Nat)
deriving DecidableEq

/-- Result of a fetch: outcome, final state of the destination file
(`some bytes` when a file is on disk) and the file-operation trace. -/
structure DLState where
  outcome : DLOutcome
  file : Option (List Nat)
  events : List FileEvent
deriving DecidableEq

/-- The test `content_type.lower().startswith("audio/")`. -/
def isAudioCT (ct : String) : Bool :=
  "audio/".data.isPrefixOf (toLowerS ct).data

/-- The body of the fetch loop, fuelled by the remaining iteration count of
`for _ in range(4)`; running out of fuel is the loop falling through. -/
def downloadAux (net : String → HttpResponse) (decode : List Nat → String)
    (clean : String → String) :
    Nat → String → List FileEvent → DLState
  | 0, _, evs =>
    ⟨.convError "Could not resolve remote audio after multiple attempts.",
     none, evs⟩
  | fuel + 1, url, evs =>
    let r := net url
    if 400 ≤ r.status then ⟨.httpError r.status, none, evs⟩
    else if isAudioCT r.contentType then
      let evs2 := evs ++ [.wrote r.body.length]
      if r.body.length = 0 then
        ⟨.convError "Remote download returned an empty file.", none,
         evs2 ++ [.unlinked]⟩
      else ⟨.ok, some r.body, evs2⟩
    else
      match extract_direct_audio_url clean (decode r.body) with
      | some nextUrl => downloadAux net decode clean fuel nextUrl evs
      | none =>
        ⟨.convError "Remote URL returned HTML or requires authentication. Ensure the link is publicly accessible.",
         none, evs⟩

/-- Embedding of `_download_from_url` (runpod_handler.py:148-185):
normalize the URL, then chase redirects for at most 4 iterations. -/
def download_from_url (net : String → HttpResponse) (decode : List Nat → String)
    (clean : String → String) (audioUrl : String) : DLState :=
  downloadAux net decode clean 4 (normalize_storage_url audioUrl) []

/-! ## The Command Builder (`_build_command` and the pod server's inline copy) -/

/-- The recognized fields of the serverless job's `input` map.  A field is
`none` when the key is absent (numeric fields are modelled post-coercion;
none of the claims depends on a failing `int(...)` coercion). -/
structure JobInput where
  video_width : Option Int := none
  video_height : Option Int := none
  fps : Option Int := none
  bitrate_kbps : Option Int := none
  mesh : Option String := none
  preset_duration : Option Int := none
  encoder_speed : Option String := none
  timeline_ini : Option String := none
  timeout_sec : PyVal := .vnone
deriving DecidableEq

/-- The lookup `job_input.get("mesh", os.environ.get("PROJECTM_MESH", "320x240"))`. -/
def JobInput.meshR (ji : JobInput) (envMesh : Option String) : String :=
  ji.mesh.getD (envMesh.getD "320x240")

/-- The lookup `job_input.get("encoder_speed", os.environ.get("PROJECTM_ENCODER_SPEED", "veryfast"))`. -/
def JobInput.speedR (ji : JobInput) (envSpeed : Option String) : String :=
  ji.encoder_speed.getD (envSpeed.getD "veryfast")

/-- Embedding of `_build_command` (runpod_handler.py:188-229). -/
def build_command (presetDir textureDir : String) (envMesh envSpeed : Option String)
    (audioPath outputPath : String) (timelinePath : Option String)
    (ji : JobInput) : List String :=
  let width := ji.video_width.getD 1920
  let height := ji.video_height.getD 1080
  let fps := ji.fps.getD 60
  let bitrate := ji.bitrate_kbps.getD 8000
  let presetDuration := ji.preset_duration.getD 60
  ["/app/convert.sh", "-i", audioPath, "-o", outputPath, "-p", presetDir,
   "--texture", textureDir, "--mesh", ji.meshR envMesh, "--video-size",
   pyStrInt width ++ "x" ++ pyStrInt height, "-r", pyStrInt fps,
   "-b", pyStrInt bitrate, "--speed", ji.speedR envSpeed] ++
  (match timelinePath with
   | some p => ["--timeline", p]
   | none => ["-d", pyStrInt presetDuration])

/-- Embedding of the inline command construction of the pod server's
`render` endpoint (runpod_pod_server.py:188-213). -/
def pod_build_command (presetDir textureDir audioPath outputPath mesh
    encoderSpeed : String)
    (videoWidth videoHeight fps bitrateKbps presetDuration : Int)
    (timelinePath : Option String) : List String :=
  ["/app/convert.sh", "-i", audioPath, "-o", outputPath, "-p", presetDir,
   "--texture", textureDir, "--mesh", mesh, "--video-size",
   pyStrInt videoWidth ++ "x" ++ pyStrInt videoHeight, "-r", pyStrInt fps,
   "-b", pyStrInt bitrateKbps, "--speed", encoderSpeed] ++
  (match timelinePath with
   | some p => ["--timeline", p]
   | none => ["-d", pyStrInt presetDuration])

/-- The handler's timeline resolution: a timeline file is written exactly
when `timeline_ini` is truthy (runpod_handler.py:288-292). -/
def handlerTimelinePath (tmp : String) (timelineIni : Option String) :
    Option String :=
  match timelineIni with
  | some s => if s ≠ "" then some (tmp ++ "/timeline.ini") else none
  | none => none

/-- The pod server's timeline resolution: URL, then uploaded file, then
inline text (runpod_pod_server.py:171-184).  An uploaded file is
`some filename?`; a falsy filename falls back to `timeline.ini`. -/
def podTimelinePath (tmp : String) (timelineUrl : Option String)
    (timelineFile : Option (Option String)) (timelineIni : Option String) :
    Option String :=
  if (timelineUrl.getD "") ≠ "" then some (tmp ++ "/timeline.ini")
  else
    match timelineFile with
    | some fn =>
      some (tmp ++ "/" ++ (match fn with
        | some s => if s ≠ "" then s else "timeline.ini"
        | none => "timeline.ini"))
    | none =>
      if (timelineIni.getD "") ≠ "" then some (tmp ++ "/timeline.ini")
      else none

/-! ## Base64, sizes, and the Process Supervisor / Result Assembler -/

/-- The base64 alphabet. -/
def b64Alphabet : List Char :=
  "ABCDEFGHIJKLMNOPQRSTUVWXYZabcdefghijklmnopqrstuvwxyz0123456789+/".data

/-- The base64 digit for a 6-bit value. -/
def b64Char (n : Nat) : Char := b64Alphabet.getD n 'A'

/-- Model of `base64.b64encode` on a byte list (standard alphabet,
`=`-padded). -/
def b64encodeBytes : List Nat → List Char
  | [] => []
  | [a] =>
    let a := a % 256
    [b64Char (a / 4), b64Char (a % 4 * 16), '=', '=']
  | [a, b] =>
    let a := a % 256
    let b := b % 256
    [b64Char (a / 4), b64Char (a % 4 * 16 + b / 16), b64Char (b % 16 * 4), '=']
  | a :: b :: c :: rest =>
    let a := a % 256
    let b := b % 256
    let c := c % 256
    b64Char (a / 4) :: b64Char (a % 4 * 16 + b / 16) ::
      b64Char (b % 16 * 4 + c / 64) :: b64Char (c % 64) :: b64encodeBytes rest

/-- The value `base64.b64encode(...).decode("utf-8")` as a string. -/
def b64encode (bs : List Nat) : String := String.mk (b64encodeBytes bs)

/-- Round-half-to-even on a rational, the idealized model of Python's
`round` (ignoring binary floating-point representation error). -/
def roundHalfEven (q : Rat) : Int :=
  let f := q.floor
  let frac := q - f
  if frac < 1 / 2 then f
  else if 1 / 2 < frac then f + 1
  else if f % 2 = 0 then f else f + 1

/-- Model of `round(x, 2)`. -/
def pyRound2 (q : Rat) : Rat := (roundHalfEven (q * 100) : Rat) / 100

/-- The size `output_path.stat().st_size / (1024 * 1024)`. -/
def fileSizeMB (outputBytes : List Nat) : Rat :=
  (outputBytes.length : Rat) / (1024 * 1024)

/-- Behaviour of the conversion child process under `communicate(timeout)`:
either it finishes in time, or the timeout expires with some partial output
captured in the `TimeoutExpired` exception and further output drained by
the post-kill `communicate()`. -/
inductive ProcBehavior where
  | completed (returncode : Int) (stdout stderr : String)
  | timedOut (partialOut partialErr : Option String) (drainOut drainErr : String)
deriving DecidableEq

/-- Which cleanup actions the supervisor performed on the child process. -/
structure SupTrace where
  killed : Bool
  drainedAfterKill : Bool
deriving DecidableEq

/-- The result record returned by `handler`, one constructor per distinct
return-dict shape of the source. -/
inductive HandlerResult where
  /-- Shape `{"error": ...}` -/
  | errorOnly (error : String)
  /-- Shape `{"error": ..., "stdout": ..., "stderr": ...}` -/
  | errorWith (error : String) (stdout stderr : Option String)
  /-- Shape `{"video_url": ..., "file_size_mb": ..., "stdout": ..., "stderr": ...}` -/
  | successUrl (videoUrl : String) (fileSizeMb : Rat) (stdout stderr : String)
  /-- Shape `{"base_video_b64": ..., "file_size_mb": ..., "upload_error": ...,
      "stdout": ..., "stderr": ...}` -/
  | successB64 (baseVideoB64 : String) (fileSizeMb : Rat) (uploadError : String)
      (stdout stderr : String)
deriving DecidableEq

/-- Whether a handler result is one of the two Success shapes. -/
def HandlerResult.isSuccess : HandlerResult → Bool
  | .successUrl _ _ _ _ => true
  | .successB64 _ _ _ _ _ => true
  | _ => false

/-- The `upload_error` field of a result, when present. -/
def HandlerResult.uploadError : HandlerResult → Option String
  | .successB64 _ _ e _ _ => some e
  | _ => none

/-- The message `f"Conversion timed out after {timeout_override} seconds"` (the float
formatting of the timeout value is modelled by `toString` on `Rat`). -/
def timeoutMsg (t : Rat) : String :=
  "Conversion timed out after " ++ toString t ++ " seconds"

/-- Embedding of the handler's conversion supervision and result assembly
(runpod_handler.py:299-407): classify the process outcome, then — only for
exit 0 with the output file present — attempt the CDN upload, falling back
to inline base64 on upload failure.  Returns the result record together
with the kill/drain trace. -/
def superviseAndAssemble (proc : ProcBehavior) (outputExists : Bool)
    (outputBytes : List Nat) (upload : Except String String) (timeoutSec : Rat) :
    HandlerResult × SupTrace :=
  match proc with
  | .timedOut pOut pErr _ _ =>
    (.errorWith (timeoutMsg timeoutSec) pOut pErr,
     { killed := true, drainedAfterKill := true })
  | .completed rc out err =>
    let tr : SupTrace := { killed := false, drainedAfterKill := false }
    if rc ≠ 0 then
      (.errorWith ("Conversion failed (exit code " ++ pyStrInt rc ++ ")")
        (some out) (some err), tr)
    else if !outputExists then
      (.errorWith "Conversion completed but output file is missing"
        (some out) (some err), tr)
    else
      let sizeMb := pyRound2 (fileSizeMB outputBytes)
      match upload with
      | .ok videoUrl => (.successUrl videoUrl sizeMb out err, tr)
      | .error uploadExc =>
        (.successB64 (b64encode outputBytes) sizeMb uploadExc out err, tr)

/-- The detail payload of the pod server's 500 response. -/
structure PodErrorDetail where
  returncode : Int
  outputExists : Bool
  stdoutTail : String
  stderrTail : String
deriving DecidableEq

/-- The pod server's `/render` outcome: an `HTTPException` or the video
bytes. -/
inductive PodResponse where
  | httpError (status : Nat) (detail : PodErrorDetail)
  | ok (videoData : List Nat)
deriving DecidableEq

/-- Whether a pod response is the binary video success response. -/
def PodResponse.isVideo : PodResponse → Bool
  | .ok _ => true
  | _ => false

/-- Python's `s[-n:]` slice. -/
def lastChars (n : Nat) (s : String) : String :=
  String.mk (s.data.drop (s.data.length - n))

/-- The tail `completed.stdout[-2000:] if completed.stdout else ""`. -/
def podTail (s : String) : String := if s = "" then "" else lastChars 2000 s

/-- Embedding of the pod server's outcome classification
(runpod_pod_server.py:250-271): any non-zero exit code **or** missing
output file is a 500, otherwise the video bytes are returned. -/
def podClassify (rc : Int) (outputExists : Bool) (stdout stderr : String)
    (videoData : List Nat) : PodResponse :=
  if rc ≠ 0 ∨ outputExists = false then
    .httpError 500 ⟨rc, outputExists, podTail stdout, podTail stderr⟩
  else .ok videoData

/-- The default `float(os.environ.get("RUNPOD_CONVERT_TIMEOUT", "10800"))`
(runpod_handler.py:20). -/
def DEFAULT_TIMEOUT_SEC (env : Option String) : Except String Rat :=
  pyFloat (.vstr (env.getD "10800"))

/-- The value `float(input_payload.get("timeout_sec") or DEFAULT_TIMEOUT_SEC)`
(runpod_handler.py:261): Python's `or` keeps the default whenever the
supplied value is falsy. -/
def resolve_timeout (v : PyVal) (dflt : Rat) : Except String Rat :=
  pyFloat (if truthy v then v else .vfloat dflt)

/-! ## Well-formedness predicates for URL round-trip reasoning

The URL model omits percent-escaping, so the theorems about
`_normalize_storage_url` restrict attention to URLs whose components keep
clear of the delimiter characters; these decidable predicates express that
restriction. -/

/-- None of the characters of `bad` occurs in `s`. -/
def noneOfChars (bad : List Char) (s : String) : Bool :=
  s.data.all fun c => !bad.contains c

/-- A scheme as `urlparse` itself would output it: empty, or a lowercase
letter followed by lowercase scheme characters. -/
def schemeWF (s : String) : Bool :=
  match s.data with
  | [] => true
  | c0 :: rest =>
    c0.isAlpha && rest.all schemeChar && (s.data.map Char.toLower == s.data)

/-- Components on which `urlunparseM` followed by `urlparseM` is the
identity (given a non-empty netloc): no stray delimiters inside any
component. -/
def partsWF (p : UrlParts) : Bool :=
  schemeWF p.scheme
  && noneOfChars ['/', '?', '#'] p.netloc
  && (p.path.data.head? == some '/' || (p.path == "" && p.params == ""))
  && noneOfChars ['?', '#', ';'] p.path
  && noneOfChars ['/', '?', '#'] p.params
  && noneOfChars ['#'] p.query
  && (p.params == "" || usesParams.contains p.scheme)

/-- A query key-value pair that survives the
`urlencode`-then-`parse_qsl` round trip verbatim: no separator characters,
no plus, no percent (the model does not percent-escape). -/
def pairWF (kv : String × String) : Bool :=
  noneOfChars ['&', '+', '%', '#', '='] kv.1
  && noneOfChars ['&', '+', '%', '#'] kv.2

/-- All pairs of a query list are round-trip safe. -/
def pairsWF (l : List (String × String)) : Bool := l.all pairWF

/-- The keys of an association list, in order. -/
def keysOf (l : List (String × String)) : List String := l.map Prod.fst

/-! # §2 Library lemmas and sanity checks -/

@[simp] theorem splitFirst_nil (sep : Char) : splitFirst sep [] = none := rfl

theorem splitFirst_eq_some {sep : Char} {l a b : List Char}
    (h : splitFirst sep l = some (a, b)) : l = a ++ sep :: b ∧ sep ∉ a := by
  induction l generalizing a b with
  | nil => simp [splitFirst] at h
  | cons c rest ih =>
    by_cases hc : c = sep
    · subst hc
      simp [splitFirst] at h
      obtain ⟨ha, hb⟩ := h
      subst ha; subst hb
      simp
    · simp [splitFirst, hc] at h
      match hrest : splitFirst sep rest with
      | some (a', b') =>
        rw [hrest] at h
        simp at h
        obtain ⟨ha, hb⟩ := h
        subst ha; subst hb
        obtain ⟨h1, h2⟩ := ih hrest
        constructor
        · simp [h1]
        · simp [h2, Ne.symm hc]
      | none => rw [hrest] at h; simp at h

theorem splitFirst_append {sep : Char} {a : List Char} (b : List Char)
    (ha : sep ∉ a) : splitFirst sep (a ++ sep :: b) = some (a, b) := by
  induction a with
  | nil => simp [splitFirst]
  | cons c rest ih =>
    have hc : c ≠ sep := by
      intro h; exact ha (h ▸ List.mem_cons_self c rest)
    have hrest : sep ∉ rest := fun h => ha (List.mem_cons_of_mem c h)
    simp [splitFirst, hc, ih hrest]

theorem splitFirst_none {sep : Char} {l : List Char} (h : sep ∉ l) :
    splitFirst sep l = none := by
  induction l with
  | nil => rfl
  | cons c rest ih =>
    have hc : c ≠ sep := by
      intro hh; exact h (hh ▸ List.mem_cons_self c rest)
    have hrest : sep ∉ rest := fun hh => h (List.mem_cons_of_mem c hh)
    simp [splitFirst, hc, ih hrest]

theorem splitLast_append {sep : Char} (a : List Char) {b : List Char}
    (hb : sep ∉ b) : splitLast sep (a ++ sep :: b) = some (a, b) := by
  unfold splitLast
  have : (a ++ sep :: b).reverse = b.reverse ++ sep :: a.reverse := by
    simp
  rw [this, splitFirst_append a.reverse (by simpa using hb)]
  simp

theorem splitLast_none {sep : Char} {l : List Char} (h : sep ∉ l) :
    splitLast sep l = none := by
  unfold splitLast
  rw [splitFirst_none (by simpa using h)]

theorem pyStrNatAux_digits {fuel n : Nat} {c : Char}
    (h : c ∈ pyStrNatAux fuel n) : c.isDigit = true := by
  induction fuel generalizing n with
  | zero => simp [pyStrNatAux] at h
  | succ fuel ih =>
    match n with
    | 0 => simp [pyStrNatAux] at h
    | m + 1 =>
      simp only [pyStrNatAux, List.mem_append, List.mem_singleton] at h
      rcases h with h | h
      · exact ih h
      · subst h
        have hlt : (m + 1) % 10 < 10 := Nat.mod_lt _ (by omega)
        interval_cases hr : (m + 1) % 10 <;> decide

theorem pyStrNat_digits {n : Nat} {c : Char}
    (h : c ∈ (pyStrNat n).data) : c.isDigit = true := by
  unfold pyStrNat at h
  by_cases hn : n = 0
  · simp [hn] at h
    subst h; decide
  · simp [hn, String.mk] at h
    exact pyStrNatAux_digits h

theorem pyStrInt_chars {n : Int} {c : Char}
    (h : c ∈ (pyStrInt n).data) : c.isDigit = true ∨ c = '-' := by
  match n with
  | .ofNat m => exact Or.inl (pyStrNat_digits h)
  | .negSucc m =>
    have hdata : ("-" ++ pyStrNat (m + 1)).data = '-' :: (pyStrNat (m + 1)).data := rfl
    rw [pyStrInt, hdata] at h
    rcases List.mem_cons.mp h with h | h
    · exact Or.inr h
    · exact Or.inl (pyStrNat_digits h)

theorem pyStrInt_ne_dash_d (n : Int) : pyStrInt n ≠ "-d" := by
  intro h
  have hd : 'd' ∈ (pyStrInt n).data := by
    rw [h]; decide
  rcases pyStrInt_chars hd with h1 | h1 <;> simp at h1

theorem pyStrInt_ne_timeline (n : Int) : pyStrInt n ≠ "--timeline" := by
  intro h
  have hd : 't' ∈ (pyStrInt n).data := by
    rw [h]; decide
  rcases pyStrInt_chars hd with h1 | h1 <;> simp at h1

example : urlparseM "https://drive.google.com/file/d/ABC123/view?foo=bar" =
    ⟨"https", "drive.google.com", "/file/d/ABC123/view", "", "foo=bar", ""⟩ := by decide

example : normalize_storage_url "https://drive.google.com/file/d/ABC123/view?foo=bar" =
    "https://drive.google.com/uc?export=download&id=ABC123" := by decide

example : normalize_storage_url "https://www.dropbox.com/s/abc/x.mp3?rlkey=k" =
    "https://www.dropbox.com/s/abc/x.mp3?rlkey=k&dl=1" := by decide

example : normalize_storage_url "https://example.com/a/b.mp3?x=1" =
    "https://example.com/a/b.mp3?x=1" := by decide

example : normalize_storage_url "https://1drv.ms/u/s!xyz" =
    "https://1drv.ms/u/s!xyz?download=1" := by decide

example : normalize_storage_url "https://drive.google.com/open?id=" =
    "https://drive.google.com/open?id=" := by decide

example : normalize_storage_url "https://drive.google.com/open?id=XYZ" =
    "https://drive.google.com/uc?export=download&id=XYZ" := by decide

example : normalize_storage_url "http://example.com/a?" =
    "http://example.com/a" := by decide

example : extract_direct_audio_url id
    "window.location(\"https://a.example/x.mp3\")" =
    some "https://a.example/x.mp3" := by decide

example : extract_direct_audio_url id
    "<meta http-equiv=\"refresh\" content=\"0; url=https://meta.example/y\">" =
    some "https://meta.example/y" := by decide

example : extract_direct_audio_url id
    "window.location.href('https://a.example/x.mp3') content=\"0; url=https://meta.example/y\" https://bare.example/z.mp3" =
    some "https://a.example/x.mp3" := by decide

example : extract_direct_audio_url id
    "<p>go https://files.example/song.mp3 now</p>" =
    some "https://files.example/song.mp3" := by decide

example : extract_direct_audio_url id
    "<input name=\"confirm\" value=\"tok\"> <input name=\"id\" value=\"FID\">" =
    some "https://drive.google.com/uc?export=download&confirm=tok&id=FID" := by decide

example : extract_direct_audio_url id "hello world, nothing here" = none := by
  decide

example : extract_direct_audio_url id
    "<a href=\"https://drive.google.com/uc?id=Q7\">dl</a>" =
    some "https://drive.google.com/uc?id=Q7" := by decide

example : extract_direct_audio_url id
    "<div data-url=\"https://r4---sn.googleusercontent.com/dl\"></div>" =
    some "https://r4---sn.googleusercontent.com/dl" := by decide

example : extract_direct_audio_url id
    "data-url=\"https://googleusercontent.com/x\"" =
    some "https://googleusercontent.com/x" := by decide

example : extract_direct_audio_url id "content=\"0;url=https://m.example/q\"" =
    some "https://m.example/q" := by decide

example : extract_direct_audio_url id
    "Window.Location ( \"HTTPS://U.example/A.MP3\" )" =
    some "HTTPS://U.example/A.MP3" := by decide

example : extract_direct_audio_url id
    "<a HREF=\"https://drive.google.com/uc?id=Q7\">" =
    some "https://drive.google.com/uc?id=Q7" := by decide

example : extract_direct_audio_url id
    "HREF=\"HTTPS://DRIVE.GOOGLE.COM/UC?ID=Q8\"" =
    some "HTTPS://DRIVE.GOOGLE.COM/UC?ID=Q8" := by decide

example : extract_direct_audio_url id
    "\"DownloadURL\":\"https://cdn.example/f.bin\"" =
    some "https://cdn.example/f.bin" := by decide

example : extract_direct_audio_url id
    "<div DATA-URL=\"https://r4.googleusercontent.com/dl\">" =
    some "https://r4.googleusercontent.com/dl" := by decide

example : b64encode [77, 97, 110] = "TWFu" := by decide
example : b64encode [77, 97] = "TWE=" := by decide
example : b64encode [77] = "TQ==" := by decide
example : b64encode [] = "" := by decide

example : DEFAULT_TIMEOUT_SEC none = .ok 10800 := by
  simp [DEFAULT_TIMEOUT_SEC, pyFloat, parsePyFloat, parseDigits, splitFirst]
example : resolve_timeout (.vint 0) 10800 = .ok 10800 := by
  simp [resolve_timeout, truthy, pyFloat]
example : resolve_timeout (.vstr "7200") 10800 = .ok 7200 := by
  simp [resolve_timeout, truthy, pyFloat, parsePyFloat, parseDigits, splitFirst]
example : resolve_timeout (.vstr "1.5") 10800 = .ok (3 / 2) := by
  simp [resolve_timeout, truthy, pyFloat, parsePyFloat, parseDigits, splitFirst]
  norm_num
example : (resolve_timeout (.vstr "abc") 10800).isOk = false := by decide

@[simp] theorem mk_data (s : String) : String.mk s.data = s := rfl

@[simp] theorem data_mk (cs : List Char) : (String.mk cs).data = cs := rfl

theorem data_eq_nil_iff {s : String} : s.data = [] ↔ s = "" := by
  constructor
  · intro h
    have : String.mk s.data = String.mk [] := by rw [h]
    simpa using this
  · intro h; rw [h]

theorem ne_empty_iff_data {s : String} : s ≠ "" ↔ s.data ≠ [] := by
  rw [not_iff_not]
  exact data_eq_nil_iff.symm

theorem noneOfChars_not_mem {bad : List Char} {s : String} {c : Char}
    (h : noneOfChars bad s = true) (hc : c ∈ bad) : c ∉ s.data := by
  intro hmem
  have := List.all_eq_true.mp h c hmem
  simp at this
  exact this hc

theorem unquote_quote {s : String} (h : '+' ∉ s.data) :
    unquotePlus (quotePlus s) = s := by
  unfold unquotePlus quotePlus
  rw [List.map_map]
  have : s.data.map ((fun c => if c = '+' then ' ' else c) ∘
      (fun c => if c = ' ' then '+' else c)) = s.data.map id := by
    apply List.map_congr_left
    intro c hc
    by_cases hsp : c = ' '
    · simp [hsp]
    · have hplus : c ≠ '+' := fun heq => h (heq ▸ hc)
      simp [Function.comp, hsp, hplus]
  rw [this, List.map_id, mk_data]

theorem splitAll_no_sep {sep : Char} {l : List Char} (h : sep ∉ l) :
    splitAll sep l = [l] := by
  induction l with
  | nil => rfl
  | cons c rest ih =>
    have hc : c ≠ sep := fun heq => h (heq ▸ List.mem_cons_self c rest)
    have hr : sep ∉ rest := fun hm => h (List.mem_cons_of_mem c hm)
    simp [splitAll, hc, ih hr]

theorem splitAll_append {sep : Char} {a : List Char} (b : List Char)
    (h : sep ∉ a) : splitAll sep (a ++ sep :: b) = a :: splitAll sep b := by
  induction a with
  | nil => simp [splitAll]
  | cons c rest ih =>
    have hc : c ≠ sep := fun heq => h (heq ▸ List.mem_cons_self c rest)
    have hr : sep ∉ rest := fun hm => h (List.mem_cons_of_mem c hm)
    have hne : splitAll sep (rest ++ sep :: b) =
        rest :: splitAll sep b := ih hr
    simp [splitAll, hc, hne]

theorem splitAll_joinSep {sep : Char} {parts : List (List Char)}
    (h : ∀ p ∈ parts, sep ∉ p) (hne : parts ≠ []) :
    splitAll sep (joinSep sep parts) = parts := by
  induction parts with
  | nil => exact absurd rfl hne
  | cons x t ih =>
    match t with
    | [] =>
      exact splitAll_no_sep (h x (List.mem_cons_self x []))
    | y :: t2 =>
      have hx : sep ∉ x := h x (List.mem_cons_self _ _)
      have ht : ∀ p ∈ y :: t2, sep ∉ p := fun p hp =>
        h p (List.mem_cons_of_mem x hp)
      have : joinSep sep (x :: y :: t2) = x ++ sep :: joinSep sep (y :: t2) :=
        rfl
      rw [this, splitAll_append _ hx, ih ht (by simp)]

/-- The encoded form of one key-value pair, as produced by `urlencodeM`. -/
theorem encPair_no_sep {kv : String × String} (h : pairWF kv = true)
    {c : Char} (hc : c = '&' ∨ c = '#') :
    c ∉ quotePlus kv.1 ++ '=' :: quotePlus kv.2 := by
  obtain ⟨h1, h2⟩ := by simpa [pairWF] using h
  intro hmem
  have hc1 : c ≠ '=' := by rcases hc with h | h <;> simp [h]
  rcases List.mem_append.mp hmem with hm | hm
  · obtain ⟨c0, hc0, hcc⟩ := List.mem_map.mp hm
    by_cases hsp : c0 = ' '
    · simp [hsp] at hcc
      rcases hc with h | h <;> simp [← hcc] at h
    · simp [hsp] at hcc
      subst hcc
      have := noneOfChars_not_mem h1 (show c0 ∈ ['&', '+', '%', '#', '='] by
        rcases hc with h | h <;> simp [h]) hc0
      exact this
  · rcases List.mem_cons.mp hm with hm | hm
    · exact hc1 hm
    · obtain ⟨c0, hc0, hcc⟩ := List.mem_map.mp hm
      by_cases hsp : c0 = ' '
      · simp [hsp] at hcc
        rcases hc with h | h <;> simp [← hcc] at h
      · simp [hsp] at hcc
        subst hcc
        exact noneOfChars_not_mem h2 (show c0 ∈ ['&', '+', '%', '#'] by
          rcases hc with h | h <;> simp [h]) hc0

theorem parseQsl_one_pair {kv : String × String} (h : pairWF kv = true) :
    (if (quotePlus kv.1 ++ '=' :: quotePlus kv.2).isEmpty then
        (none : Option (String × String))
      else
        match splitFirst '=' (quotePlus kv.1 ++ '=' :: quotePlus kv.2) with
        | some (n, v) => some (unquotePlus n, unquotePlus v)
        | none => some (unquotePlus (quotePlus kv.1 ++ '=' :: quotePlus kv.2), ""))
      = some kv := by
  obtain ⟨h1, h2⟩ := by simpa [pairWF] using h
  have hne : (quotePlus kv.1 ++ '=' :: quotePlus kv.2).isEmpty = false := by
    simp [List.isEmpty_iff]
  have heq : splitFirst '=' (quotePlus kv.1 ++ '=' :: quotePlus kv.2) =
      some (quotePlus kv.1, quotePlus kv.2) := by
    apply splitFirst_append
    intro hmem
    obtain ⟨c0, hc0, hcc⟩ := List.mem_map.mp hmem
    by_cases hsp : c0 = ' '
    · simp [hsp] at hcc
    · simp [hsp] at hcc
      subst hcc
      exact noneOfChars_not_mem h1 (by simp) hc0
  rw [hne, heq]
  simp only [Bool.false_eq_true, if_false]
  have hq1 : unquotePlus (quotePlus kv.1) = kv.1 :=
    unquote_quote (noneOfChars_not_mem h1 (by simp))
  have hq2 : unquotePlus (quotePlus kv.2) = kv.2 :=
    unquote_quote (noneOfChars_not_mem h2 (by simp))
  rw [hq1, hq2]

/-- The `urlencode` / `parse_qsl` round trip on well-formed pairs. -/
theorem parseQsl_urlencode {l : List (String × String)}
    (h : pairsWF l = true) : parseQslM (urlencodeM l).data = l := by
  match l with
  | [] => rfl
  | kv :: t =>
    have hall : ∀ kv2 ∈ (kv :: t), pairWF kv2 = true := by
      intro kv2 hkv2
      exact List.all_eq_true.mp h kv2 hkv2
    unfold parseQslM urlencodeM
    rw [data_mk]
    have hsep : ∀ part ∈ (kv :: t).map
        (fun kv2 => quotePlus kv2.1 ++ '=' :: quotePlus kv2.2), '&' ∉ part := by
      intro part hpart
      obtain ⟨kv2, hkv2, hpe⟩ := List.mem_map.mp hpart
      rw [← hpe]
      exact encPair_no_sep (hall kv2 hkv2) (Or.inl rfl)
    rw [splitAll_joinSep hsep (by simp)]
    rw [List.filterMap_map]
    have : ∀ kv2 ∈ (kv :: t),
        ((fun nv =>
            if nv.isEmpty then (none : Option (String × String))
            else
              match splitFirst '=' nv with
              | some (n, v) => some (unquotePlus n, unquotePlus v)
              | none => some (unquotePlus nv, "")) ∘
          fun kv2 => quotePlus kv2.1 ++ '=' :: quotePlus kv2.2) kv2
          = some kv2 := by
      intro kv2 hkv2
      exact parseQsl_one_pair (hall kv2 hkv2)
    calc ((kv :: t).filterMap _) = (kv :: t).filterMap some := by
          exact List.filterMap_congr this
      _ = kv :: t := List.filterMap_some _

@[simp] theorem lookupD_dictSet_self (d : List (String × String))
    (k v : String) : lookupD (dictSet d k v) k = some v := by
  induction d with
  | nil => simp [dictSet, lookupD]
  | cons kv t ih =>
    by_cases hk : kv.1 = k
    · simp [dictSet, hk, lookupD]
    · simp [dictSet, hk, lookupD, ih]

@[simp] theorem keysOf_nil : keysOf [] = [] := rfl

@[simp] theorem keysOf_cons (kv : String × String)
    (t : List (String × String)) : keysOf (kv :: t) = kv.1 :: keysOf t := rfl

theorem lookupD_dictSet_ne (d : List (String × String)) (k v k2 : String)
    (h : k2 ≠ k) : lookupD (dictSet d k v) k2 = lookupD d k2 := by
  induction d with
  | nil => simp [dictSet, lookupD, Ne.symm h]
  | cons kv t ih =>
    by_cases hk : kv.1 = k
    · simp [dictSet, hk, lookupD, Ne.symm h]
    · simp [dictSet, hk, lookupD, ih]

theorem dictSet_of_not_mem_keys {d : List (String × String)}
    {k : String} (h : k ∉ keysOf d) (v : String) :
    dictSet d k v = d ++ [(k, v)] := by
  induction d with
  | nil => rfl
  | cons kv t ih =>
    have hk : kv.1 ≠ k := by
      intro heq
      exact h (by simp [keysOf, heq])
    have ht : k ∉ keysOf t := by
      intro hm
      exact h (by simp [keysOf] at hm ⊢; exact Or.inr hm)
    simp [dictSet, hk, ih ht]

theorem keysOf_dictSet (d : List (String × String)) (k v : String) :
    keysOf (dictSet d k v) =
      if k ∈ keysOf d then keysOf d else keysOf d ++ [k] := by
  induction d with
  | nil => simp [dictSet]
  | cons kv t ih =>
    by_cases hk : kv.1 = k
    · simp [dictSet, hk]
    · simp only [dictSet, if_neg hk, keysOf_cons, ih]
      by_cases hm : k ∈ keysOf t
      · simp [hm]
      · simp [hm, Ne.symm hk]

theorem nodup_keysOf_dictSet {d : List (String × String)}
    (h : (keysOf d).Nodup) (k v : String) :
    (keysOf (dictSet d k v)).Nodup := by
  rw [keysOf_dictSet]
  by_cases hm : k ∈ keysOf d
  · simpa [hm]
  · rw [if_neg hm]
    refine List.Nodup.append h (List.nodup_singleton k) ?_
    intro x hx hxk
    simp only [List.mem_singleton] at hxk
    exact hm (hxk ▸ hx)

theorem nodup_keysOf_dictOfPairs (l : List (String × String)) :
    (keysOf (dictOfPairs l)).Nodup := by
  suffices hgen : ∀ acc : List (String × String), (keysOf acc).Nodup →
      (keysOf (l.foldl (fun acc kv => dictSet acc kv.1 kv.2) acc)).Nodup by
    exact hgen [] (by simp [keysOf])
  induction l with
  | nil => intro acc hacc; simpa using hacc
  | cons kv t ih =>
    intro acc hacc
    exact ih (dictSet acc kv.1 kv.2) (nodup_keysOf_dictSet hacc kv.1 kv.2)

theorem dictOfPairs_foldl_of_nodup {l : List (String × String)} :
    ∀ acc : List (String × String),
      (keysOf acc ++ keysOf l).Nodup →
      l.foldl (fun acc kv => dictSet acc kv.1 kv.2) acc = acc ++ l := by
  induction l with
  | nil => intro acc _; simp
  | cons kv t ih =>
    intro acc hacc
    have hknot : kv.1 ∉ keysOf acc := by
      have hdisj := (List.nodup_append.mp hacc).2.2
      intro hm
      exact hdisj hm (by simp [keysOf])
    have hstep : dictSet acc kv.1 kv.2 = acc ++ [(kv.1, kv.2)] :=
      dictSet_of_not_mem_keys hknot kv.2
    have hacc2 : (keysOf (acc ++ [(kv.1, kv.2)]) ++ keysOf t).Nodup := by
      simp only [keysOf, List.map_append, List.map_cons, List.map_nil] at hacc ⊢
      simp only [List.nodup_append] at hacc ⊢
      obtain ⟨h1, h2, h3⟩ := hacc
      obtain ⟨h4, h5⟩ := List.nodup_cons.mp h2
      refine ⟨⟨h1, by simp, ?_⟩, h5, ?_⟩
      · intro a ha
        simp only [List.mem_singleton]
        intro heq
        exact h3 ha (by simp [heq])
      · intro a ha hm
        simp only [List.mem_append, List.mem_singleton] at ha
        rcases ha with ha | ha
        · exact h3 ha (by simp [hm])
        · rw [ha] at hm
          exact h4 hm
    have := ih (acc ++ [(kv.1, kv.2)]) hacc2
    simp only [List.foldl_cons, hstep, this]
    simp

theorem dictOfPairs_of_nodup {l : List (String × String)}
    (h : (keysOf l).Nodup) : dictOfPairs l = l := by
  have := dictOfPairs_foldl_of_nodup (l := l) [] (by simpa [keysOf] using h)
  simpa [dictOfPairs] using this

theorem pairsWF_dictSet {d : List (String × String)} {k v : String}
    (hd : pairsWF d = true) (hkv : pairWF (k, v) = true) :
    pairsWF (dictSet d k v) = true := by
  induction d with
  | nil => simpa [dictSet, pairsWF]
  | cons kv2 t ih =>
    have hkv2 : pairWF kv2 = true := by
      have := List.all_eq_true.mp hd kv2 (by simp)
      exact this
    have ht : pairsWF t = true := by
      rw [pairsWF]
      apply List.all_eq_true.mpr
      intro x hx
      exact List.all_eq_true.mp hd x (by simp [hx])
    by_cases hk : kv2.1 = k
    · have h1 : noneOfChars ['&', '+', '%', '#', '='] kv2.1 = true := by
        have := hkv2
        simp [pairWF] at this
        exact this.1
      have h2 : noneOfChars ['&', '+', '%', '#'] v = true := by
        have := hkv
        simp [pairWF] at this
        exact this.2
      have h1k : noneOfChars ['&', '+', '%', '#', '='] k = true := hk ▸ h1
      simp [dictSet, hk, pairsWF, pairWF, h1k, h2]
      intro a b hab
      have := List.all_eq_true.mp ht (a, b) hab
      simpa [pairWF] using this
    · simp [dictSet, hk, pairsWF, pairWF] at hkv2 ⊢
      exact ⟨hkv2, by simpa [pairsWF, pairWF] using ih ht⟩

theorem pairsWF_foldl_dictSet {l : List (String × String)} :
    ∀ acc : List (String × String), pairsWF l = true → pairsWF acc = true →
      pairsWF (l.foldl (fun acc kv => dictSet acc kv.1 kv.2) acc) = true := by
  induction l with
  | nil => intro acc _ hacc; simpa using hacc
  | cons kv t ih =>
    intro acc h hacc
    have hkv : pairWF kv = true := List.all_eq_true.mp h kv (by simp)
    have ht : pairsWF t = true := by
      rw [pairsWF]
      apply List.all_eq_true.mpr
      intro x hx
      exact List.all_eq_true.mp h x (by simp [hx])
    exact ih (dictSet acc kv.1 kv.2) ht (pairsWF_dictSet hacc hkv)

theorem pairsWF_dictOfPairs {l : List (String × String)}
    (h : pairsWF l = true) : pairsWF (dictOfPairs l) = true :=
  pairsWF_foldl_dictSet [] h rfl

theorem takeWhile_append_stop {P : Char → Bool} {a b : List Char}
    (ha : ∀ c ∈ a, P c = true)
    (hb : ∀ c, b.head? = some c → P c = false) :
    (a ++ b).takeWhile P = a ∧ (a ++ b).dropWhile P = b := by
  induction a with
  | nil =>
    simp only [List.nil_append]
    match b with
    | [] => exact ⟨rfl, rfl⟩
    | c :: cs =>
      have := hb c rfl
      simp [List.takeWhile, List.dropWhile, this]
  | cons x xs ih =>
    have hx : P x = true := ha x (List.mem_cons_self _ _)
    have hxs : ∀ c ∈ xs, P c = true := fun c hc =>
      ha c (List.mem_cons_of_mem x hc)
    have := ih hxs
    simp [List.takeWhile, List.dropWhile, hx, this.1, this.2]

theorem splitSchemeM_not_alpha {c : Char} {l : List Char}
    (h : c.isAlpha = false) : splitSchemeM (c :: l) = ("", c :: l) := by
  unfold splitSchemeM
  match hsplit : splitFirst ':' (c :: l) with
  | none => rfl
  | some (before, after) =>
    obtain ⟨heq, _⟩ := splitFirst_eq_some hsplit
    match before, heq with
    | [], _ => rfl
    | c0 :: restB, heq =>
      have hc0 : c = c0 := by
        have h2 := congrArg List.head? heq
        simpa using h2
      rw [← hc0]
      simp [h]

theorem splitSchemeM_scheme {s : String} {t : List Char}
    (hs : schemeWF s = true) (hne : s ≠ "") :
    splitSchemeM (s.data ++ ':' :: t) = (s, t) := by
  match hd : s.data with
  | [] => exact absurd (data_eq_nil_iff.mp hd) hne
  | c0 :: rest =>
    have hs2 := hs
    simp only [schemeWF, hd, Bool.and_eq_true] at hs2
    obtain ⟨⟨halpha, hchars⟩, hlower⟩ := hs2
    have hnocolon : ':' ∉ (c0 :: rest) := by
      intro hm
      rcases List.mem_cons.mp hm with hm | hm
      · rw [← hm] at halpha
        simp [Char.isAlpha, Char.isUpper, Char.isLower] at halpha
      · have := List.all_eq_true.mp hchars ':' hm
        simp [schemeChar, Char.isAlphanum, Char.isAlpha, Char.isDigit,
          Char.isUpper, Char.isLower] at this
    unfold splitSchemeM
    rw [splitFirst_append t hnocolon]
    have hlower2 : List.map Char.toLower (c0 :: rest) = c0 :: rest :=
      beq_iff_eq.mp hlower
    simp only [halpha, hchars, and_self, if_true, hlower2]
    rw [← hd]

theorem exists_split_last {c : Char} {l : List Char} (h : c ∈ l) :
    ∃ a b, l = a ++ c :: b ∧ c ∉ b := by
  induction l with
  | nil => simp at h
  | cons x xs ih =>
    by_cases hm : c ∈ xs
    · obtain ⟨a, b, hab, hnb⟩ := ih hm
      exact ⟨x :: a, b, by simp [hab], hnb⟩
    · have hx : x = c := by
        rcases List.mem_cons.mp h with hh | hh
        · exact hh.symm
        · exact absurd hh hm
      exact ⟨[], xs, by simp [hx], hm⟩

theorem splitNetlocM_recompose {netloc : String} {tail0 : List Char}
    (hnetc : noneOfChars ['/', '?', '#'] netloc = true)
    (htail : tail0 = [] ∨ ∃ c cs, tail0 = c :: cs ∧ (c = '/' ∨ c = '?' ∨ c = '#')) :
    splitNetlocM ('/' :: '/' :: (netloc.data ++ tail0)) = (netloc, tail0) := by
  have ha : ∀ c ∈ netloc.data,
      (fun (c : Char) => decide (c ≠ '/' ∧ c ≠ '?' ∧ c ≠ '#')) c = true := by
    intro c hc
    have h1 : c ≠ '/' := fun heq =>
      noneOfChars_not_mem hnetc (by simp) (heq ▸ hc)
    have h2 : c ≠ '?' := fun heq =>
      noneOfChars_not_mem hnetc (by simp) (heq ▸ hc)
    have h3 : c ≠ '#' := fun heq =>
      noneOfChars_not_mem hnetc (by simp) (heq ▸ hc)
    simp [h1, h2, h3]
  have hb : ∀ c, tail0.head? = some c →
      (fun (c : Char) => decide (c ≠ '/' ∧ c ≠ '?' ∧ c ≠ '#')) c = false := by
    intro c hc
    rcases htail with h | ⟨c2, cs, hcons, hc2⟩
    · rw [h] at hc; simp at hc
    · rw [hcons] at hc
      simp only [List.head?_cons, Option.some.injEq] at hc
      subst hc
      rcases hc2 with h | h | h <;> simp [h]
  have := takeWhile_append_stop (a := netloc.data) (b := tail0) ha hb
  simp only [splitNetlocM, this.1, this.2, mk_data]

/-- Parsing an unsplit URL recovers the components, leaving the params
split symbolic. -/
theorem urlparseM_recompose
    (scheme netloc : String) (u0 : List Char) (query fragment : String)
    (hsch : schemeWF scheme = true)
    (hnetc : noneOfChars ['/', '?', '#'] netloc = true)
    (hn : netloc ≠ "")
    (hhead : u0 = [] ∨ u0.head? = some '/')
    (hnohash : '#' ∉ u0) (hnoq : '?' ∉ u0)
    (hqc : noneOfChars ['#'] query = true) :
    urlparseM (urlunsplitM scheme netloc u0 query fragment) =
      ⟨scheme, netloc, String.mk (paramsStage scheme u0).1,
       String.mk (paramsStage scheme u0).2, query, fragment⟩ := by
  have hqsuf : ∀ c ∈ (if query ≠ "" then '?' :: query.data else []),
      c = '?' ∨ c ∈ query.data := by
    intro c hc
    by_cases hq0 : query = ""
    · simp [hq0] at hc
    · simp only [ne_eq, hq0, not_false_eq_true, if_true] at hc
      rcases List.mem_cons.mp hc with h | h
      · exact Or.inl h
      · exact Or.inr h
  -- the body of `urlunsplitM` under the given hypotheses
  have hu : (urlunsplitM scheme netloc u0 query fragment).data =
      (if scheme ≠ "" then
        scheme.data ++ ':' ::
          ('/' :: '/' :: (netloc.data ++
            (u0 ++ ((if query ≠ "" then '?' :: query.data else []) ++
              (if fragment ≠ "" then '#' :: fragment.data else [])))))
      else
        '/' :: '/' :: (netloc.data ++
          (u0 ++ ((if query ≠ "" then '?' :: query.data else []) ++
            (if fragment ≠ "" then '#' :: fragment.data else []))))) := by
    have hinner : ¬(u0 ≠ [] ∧ u0.head? ≠ some '/') := by
      rcases hhead with h | h
      · intro hcon; exact hcon.1 h
      · intro hcon; exact hcon.2 h
    unfold urlunsplitM
    rw [if_pos (Or.inl hn), if_neg hinner]
    by_cases hs0 : scheme = "" <;> by_cases hq0 : query = "" <;>
      by_cases hf0 : fragment = "" <;>
      simp [hs0, hq0, hf0, List.append_assoc]
  -- stage A: the scheme comes back off
  have hA : splitSchemeM (urlunsplitM scheme netloc u0 query fragment).data =
      (scheme,
       '/' :: '/' :: (netloc.data ++
         (u0 ++ ((if query ≠ "" then '?' :: query.data else []) ++
           (if fragment ≠ "" then '#' :: fragment.data else []))))) := by
    rw [hu]
    by_cases hs0 : scheme = ""
    · simp only [hs0, ne_eq, not_true_eq_false, if_false]
      exact splitSchemeM_not_alpha (by decide)
    · simp only [ne_eq, hs0, not_false_eq_true, if_true]
      exact splitSchemeM_scheme hsch hs0
  -- stage B: the netloc comes back off
  have hB : splitNetlocM
      ('/' :: '/' :: (netloc.data ++
        (u0 ++ ((if query ≠ "" then '?' :: query.data else []) ++
          (if fragment ≠ "" then '#' :: fragment.data else []))))) =
      (netloc,
       u0 ++ ((if query ≠ "" then '?' :: query.data else []) ++
         (if fragment ≠ "" then '#' :: fragment.data else []))) := by
    apply splitNetlocM_recompose hnetc
    rcases hhead with h | h
    · rw [h]
      by_cases hq0 : query = ""
      · by_cases hf0 : fragment = ""
        · simp [hq0, hf0]
        · simp [hq0, hf0]
      · simp [hq0]
    · match u0, h with
      | [], h => simp at h
      | c :: cs, h =>
        simp only [List.head?_cons, Option.some.injEq] at h
        exact Or.inr ⟨c, cs ++ ((if query ≠ "" then '?' :: query.data else []) ++
          (if fragment ≠ "" then '#' :: fragment.data else [])), by simp,
          Or.inl h⟩
  -- stage C: the fragment comes back off
  have hC : splitHashM
      (u0 ++ ((if query ≠ "" then '?' :: query.data else []) ++
        (if fragment ≠ "" then '#' :: fragment.data else []))) =
      (u0 ++ (if query ≠ "" then '?' :: query.data else []), fragment) := by
    have hnomid : '#' ∉ u0 ++ (if query ≠ "" then '?' :: query.data else []) := by
      intro hmem
      rcases List.mem_append.mp hmem with h | h
      · exact hnohash h
      · rcases hqsuf '#' h with h2 | h2
        · simp at h2
        · exact noneOfChars_not_mem hqc (by simp) h2
    by_cases hf0 : fragment = ""
    · simp only [hf0, ne_eq, not_true_eq_false, if_false, List.append_nil]
      simp only [splitHashM, splitFirst_none hnomid]
    · simp only [ne_eq, hf0, not_false_eq_true, if_true]
      have : u0 ++ ((if query ≠ "" then '?' :: query.data else []) ++
          '#' :: fragment.data) =
          (u0 ++ (if query ≠ "" then '?' :: query.data else [])) ++
            '#' :: fragment.data := by
        simp [List.append_assoc]
      rw [this]
      simp only [splitHashM, splitFirst_append _ hnomid, mk_data]
  -- stage D: the query comes back off
  have hD : splitQueryM (u0 ++ (if query ≠ "" then '?' :: query.data else [])) =
      (u0, query) := by
    by_cases hq0 : query = ""
    · simp only [hq0, ne_eq, not_true_eq_false, if_false, List.append_nil]
      simp only [splitQueryM, splitFirst_none hnoq]
    · simp only [ne_eq, hq0, not_false_eq_true, if_true]
      simp only [splitQueryM, splitFirst_append _ hnoq, mk_data]
  simp only [urlparseM, hA, hB, hC, hD]

theorem paramsStage_recompose {p : UrlParts}
    (hpath0 : p.path.data.head? = some '/' ∨ (p.path = "" ∧ p.params = ""))
    (hpathc : noneOfChars ['?', '#', ';'] p.path = true)
    (hparc : noneOfChars ['/', '?', '#'] p.params = true)
    (hpar2 : p.params = "" ∨ p.scheme ∈ usesParams) :
    paramsStage p.scheme
      (if p.params ≠ "" then p.path.data ++ ';' :: p.params.data
       else p.path.data) = (p.path.data, p.params.data) := by
  have hnosemi : ';' ∉ p.path.data := noneOfChars_not_mem hpathc (by simp)
  by_cases hpar : p.params = ""
  · simp only [hpar, ne_eq, not_true_eq_false, if_false]
    have hcon : p.path.data.contains ';' = false := by
      by_contra hcc
      simp only [Bool.not_eq_false] at hcc
      exact hnosemi (by simpa using hcc)
    unfold paramsStage
    have hnc : ¬(p.scheme ∈ usesParams ∧ p.path.data.contains ';' = true) := by
      intro hcon2
      rw [hcon] at hcon2
      exact Bool.false_ne_true hcon2.2
    rw [if_neg hnc]
  · have hmem : p.scheme ∈ usesParams := by
      rcases hpar2 with h | h
      · exact absurd h hpar
      · exact h
    have hhead : p.path.data.head? = some '/' := by
      rcases hpath0 with h | ⟨_, h2⟩
      · exact h
      · exact absurd h2 hpar
    have hslash : '/' ∈ p.path.data := by
      match hd : p.path.data with
      | [] => rw [hd] at hhead; simp at hhead
      | c :: cs =>
        rw [hd] at hhead
        simp only [List.head?_cons, Option.some.injEq] at hhead
        rw [hhead]
        exact List.mem_cons_self _ _
    obtain ⟨A, B, hAB, hnB⟩ := exists_split_last hslash
    have hnB2 : '/' ∉ B ++ ';' :: p.params.data := by
      intro hmem2
      rcases List.mem_append.mp hmem2 with h | h
      · exact hnB h
      · rcases List.mem_cons.mp h with h | h
        · simp at h
        · exact noneOfChars_not_mem hparc (by simp) h
    have hnBsemi : ';' ∉ B := by
      intro hmem2
      exact hnosemi (hAB ▸ List.mem_append.mpr (Or.inr (List.mem_cons_of_mem _ hmem2)))
    have hcontains : (p.path.data ++ ';' :: p.params.data).contains ';' = true := by
      simp
    simp only [ne_eq, hpar, not_false_eq_true, if_true]
    unfold paramsStage
    rw [if_pos ⟨hmem, hcontains⟩]
    unfold splitParamsM
    have hform : p.path.data ++ ';' :: p.params.data =
        A ++ '/' :: (B ++ ';' :: p.params.data) := by
      rw [hAB]
      simp
    rw [hform, splitLast_append A hnB2]
    simp only [splitFirst_append p.params.data hnBsemi]
    rw [← hAB]

/-- The full `urlparse`/`urlunparse` round trip on well-formed parts with a
non-empty netloc. -/
theorem urlparse_urlunparse {p : UrlParts} (hwf : partsWF p = true)
    (hn : p.netloc ≠ "") : urlparseM (urlunparseM p) = p := by
  have hw := hwf
  simp only [partsWF, Bool.and_eq_true] at hw
  obtain ⟨⟨⟨⟨⟨⟨hsch, hnetc⟩, hpath0⟩, hpathc⟩, hparc⟩, hqc⟩, hpar2⟩ := hw
  have hpath0' : p.path.data.head? = some '/' ∨ (p.path = "" ∧ p.params = "") := by
    simpa using hpath0
  have hpar2' : p.params = "" ∨ p.scheme ∈ usesParams := by
    simpa using hpar2
  have hunfold : urlunparseM p = urlunsplitM p.scheme p.netloc
      (if p.params ≠ "" then p.path.data ++ ';' :: p.params.data
       else p.path.data) p.query p.fragment := rfl
  have hhead : (if p.params ≠ "" then p.path.data ++ ';' :: p.params.data
      else p.path.data) = [] ∨
      (if p.params ≠ "" then p.path.data ++ ';' :: p.params.data
       else p.path.data).head? = some '/' := by
    by_cases hpar : p.params = ""
    · rw [if_neg (fun hc => hc hpar)]
      rcases hpath0' with h | ⟨h1, _⟩
      · exact Or.inr h
      · exact Or.inl (data_eq_nil_iff.mpr h1)
    · have hh : p.path.data.head? = some '/' := by
        rcases hpath0' with h | ⟨_, h2⟩
        · exact h
        · exact absurd h2 hpar
      right
      rw [if_pos hpar]
      match p.path.data, hh with
      | c :: cs, hh =>
        simp only [List.head?_cons] at hh
        simpa using hh
  have hnohash : '#' ∉ (if p.params ≠ "" then
      p.path.data ++ ';' :: p.params.data else p.path.data) := by
    intro hmem
    by_cases hpar : p.params = ""
    · rw [if_neg (fun hc => hc hpar)] at hmem
      exact noneOfChars_not_mem hpathc (by simp) hmem
    · rw [if_pos hpar] at hmem
      rcases List.mem_append.mp hmem with h | h
      · exact noneOfChars_not_mem hpathc (by simp) h
      · rcases List.mem_cons.mp h with h | h
        · simp at h
        · exact noneOfChars_not_mem hparc (by simp) h
  have hnoq : '?' ∉ (if p.params ≠ "" then
      p.path.data ++ ';' :: p.params.data else p.path.data) := by
    intro hmem
    by_cases hpar : p.params = ""
    · rw [if_neg (fun hc => hc hpar)] at hmem
      exact noneOfChars_not_mem hpathc (by simp) hmem
    · rw [if_pos hpar] at hmem
      rcases List.mem_append.mp hmem with h | h
      · exact noneOfChars_not_mem hpathc (by simp) h
      · rcases List.mem_cons.mp h with h | h
        · simp at h
        · exact noneOfChars_not_mem hparc (by simp) h
  rw [hunfold, urlparseM_recompose p.scheme p.netloc _ p.query p.fragment
    hsch hnetc hn hhead hnohash hnoq hqc]
  rw [paramsStage_recompose hpath0' hpathc hparc hpar2']

theorem mem_joinSep {sep : Char} {c : Char} {parts : List (List Char)}
    (h : c ∈ joinSep sep parts) : c = sep ∨ ∃ part ∈ parts, c ∈ part := by
  induction parts with
  | nil => simp [joinSep] at h
  | cons x t ih =>
    match t with
    | [] =>
      simp only [joinSep] at h
      exact Or.inr ⟨x, by simp, h⟩
    | y :: t2 =>
      have hj : joinSep sep (x :: y :: t2) = x ++ sep :: joinSep sep (y :: t2) :=
        rfl
      rw [hj] at h
      rcases List.mem_append.mp h with h | h
      · exact Or.inr ⟨x, by simp, h⟩
      · rcases List.mem_cons.mp h with h | h
        · exact Or.inl h
        · rcases ih h with h | ⟨part, hp, hc⟩
          · exact Or.inl h
          · exact Or.inr ⟨part, List.mem_cons_of_mem x hp, hc⟩

theorem urlencode_no_hash {l : List (String × String)}
    (h : pairsWF l = true) : noneOfChars ['#'] (urlencodeM l) = true := by
  unfold noneOfChars urlencodeM
  rw [data_mk]
  apply List.all_eq_true.mpr
  intro c hc
  simp only [Bool.not_eq_true']
  by_contra hcc
  simp only [Bool.not_eq_false] at hcc
  have hhash : c = '#' := by simpa using hcc
  subst hhash
  rcases mem_joinSep hc with h2 | ⟨part, hp, hcp⟩
  · simp at h2
  · obtain ⟨kv, hkv, hpe⟩ := List.mem_map.mp hp
    have := encPair_no_sep (List.all_eq_true.mp h kv hkv) (Or.inr rfl)
    rw [hpe] at this
    exact this hcp

theorem occursS_nonempty {pat s : String} (h : occursS pat s = true)
    (hp : pat ≠ "") : s ≠ "" := by
  intro hs
  rw [hs] at h
  match hd : pat.data, (ne_empty_iff_data.mp hp) with
  | c :: cs, _ =>
    rw [occursS, hd] at h
    simp [occursL, List.isPrefixOf] at h

theorem toLowerS_nonempty {s : String} (h : toLowerS s ≠ "") : s ≠ "" := by
  intro hs
  rw [hs] at h
  exact h rfl

/-! # §3 Claim theorems -/

/-- C7 counterexample, three parts. (1) The Google-Drive rewrite replaces
the query entirely: a pre-existing `foo=bar` parameter, not explicitly
overridden by the documented rewrite, is dropped — refuting "every rewrite
preserves all pre-existing query parameters that are not explicitly
overridden". (2) An unrecognized host is not returned literally unchanged:
`http://example.com/a?` (its dropbox/onedrive/google guards all false)
comes back as `http://example.com/a`, the `urlunparse ∘ urlparse`
recomposition having dropped the dangling `?` — so the unrecognized-host
clause holds only up to recomposition. (3) A google-drive URL whose `id`
parameter is blank is passed through (the source's `if file_id:` truthiness
test fails), not rewritten to the `uc?export=download` form — so the
documented google rewrite applies only when the extracted id is non-empty. -/
theorem c7_counterexample :
    (normalize_storage_url "https://drive.google.com/file/d/ABC123/view?foo=bar"
      = "https://drive.google.com/uc?export=download&id=ABC123"
    ∧ lookupD (parseQslM (urlparseM
        "https://drive.google.com/file/d/ABC123/view?foo=bar").query.data) "foo"
      = some "bar"
    ∧ lookupD (parseQslM (urlparseM (normalize_storage_url
        "https://drive.google.com/file/d/ABC123/view?foo=bar")).query.data) "foo"
      = none)
    ∧ (occursS "dropbox.com"
        (toLowerS (urlparseM "http://example.com/a?").netloc) = false
    ∧ (occursS "onedrive" (toLowerS (urlparseM "http://example.com/a?").netloc)
       || occursS "1drv.ms" (toLowerS (urlparseM "http://example.com/a?").netloc)
       || occursS "sharepoint.com"
            (toLowerS (urlparseM "http://example.com/a?").netloc)) = false
    ∧ (occursS "drive.google.com"
         (toLowerS (urlparseM "http://example.com/a?").netloc)
       || occursS "docs.google.com"
            (toLowerS (urlparseM "http://example.com/a?").netloc)) = false
    ∧ normalize_storage_url "http://example.com/a?" = "http://example.com/a"
    ∧ normalize_storage_url "http://example.com/a?" ≠ "http://example.com/a?")
    ∧ (googleFileId (urlparseM "https://drive.google.com/open?id=")
        (dictOfPairs (parseQslM
          (urlparseM "https://drive.google.com/open?id=").query.data))
      = some ""
    ∧ normalize_storage_url "https://drive.google.com/open?id="
      = "https://drive.google.com/open?id="
    ∧ normalize_storage_url "https://drive.google.com/open?id="
      ≠ "https://drive.google.com/uc?export=download&id=") := by
  refine ⟨⟨by decide, by decide, by decide⟩,
    ⟨by decide, by decide, by decide, by decide, by decide⟩,
    by decide, by decide, by decide⟩

/-- C7 (amended). The URL normalizer is a total function whose output
follows the documented rewrite rules: dropbox hosts get `dl=1` with the host
pinned to `www.dropbox.com`; the onedrive/1drv/sharepoint family gets
`download=1` with the host unchanged; google drive/docs URLs with a
*non-empty* `/file/d/{id}` path id or `id` query parameter become
`https://drive.google.com/uc?export=download&id={id}` *with the query
replaced entirely* (pre-existing parameters are dropped in that branch);
the dropbox and onedrive rewrites preserve every pre-existing parameter not
explicitly overridden; for every unrecognized host — and for google hosts
whose extracted file id is missing or blank (`if file_id:` is falsy) — the
URL is returned unchanged up to URL recomposition (`urlunparse ∘ urlparse`),
hence exactly unchanged whenever that recomposition is the identity on the
input. -/
theorem c7_normalizer_rewrite_rules (url : String)
    (hwf : partsWF (urlparseM url) = true)
    (hq : pairsWF (parseQslM (urlparseM url).query.data) = true) :
    (occursS "dropbox.com" (toLowerS (urlparseM url).netloc) = true →
      (urlparseM (normalize_storage_url url)).netloc = "www.dropbox.com"
      ∧ parseQslM (urlparseM (normalize_storage_url url)).query.data =
          dictSet (dictOfPairs (parseQslM (urlparseM url).query.data)) "dl" "1"
      ∧ lookupD (parseQslM (urlparseM (normalize_storage_url url)).query.data)
          "dl" = some "1"
      ∧ ∀ k, k ≠ "dl" →
          lookupD (parseQslM
              (urlparseM (normalize_storage_url url)).query.data) k
            = lookupD (dictOfPairs (parseQslM (urlparseM url).query.data)) k)
    ∧ (occursS "dropbox.com" (toLowerS (urlparseM url).netloc) = false →
       (occursS "onedrive" (toLowerS (urlparseM url).netloc)
         || occursS "1drv.ms" (toLowerS (urlparseM url).netloc)
         || occursS "sharepoint.com" (toLowerS (urlparseM url).netloc)) = true →
      (urlparseM (normalize_storage_url url)).netloc = (urlparseM url).netloc
      ∧ parseQslM (urlparseM (normalize_storage_url url)).query.data =
          dictSet (dictOfPairs (parseQslM (urlparseM url).query.data))
            "download" "1"
      ∧ lookupD (parseQslM (urlparseM (normalize_storage_url url)).query.data)
          "download" = some "1"
      ∧ ∀ k, k ≠ "download" →
          lookupD (parseQslM
              (urlparseM (normalize_storage_url url)).query.data) k
            = lookupD (dictOfPairs (parseQslM (urlparseM url).query.data)) k)
    ∧ (occursS "dropbox.com" (toLowerS (urlparseM url).netloc) = false →
       (occursS "onedrive" (toLowerS (urlparseM url).netloc)
         || occursS "1drv.ms" (toLowerS (urlparseM url).netloc)
         || occursS "sharepoint.com" (toLowerS (urlparseM url).netloc)) = false →
       (occursS "drive.google.com" (toLowerS (urlparseM url).netloc)
         || occursS "docs.google.com" (toLowerS (urlparseM url).netloc)) = true →
       ∀ fid, googleFileId (urlparseM url)
           (dictOfPairs (parseQslM (urlparseM url).query.data)) = some fid →
         fid ≠ "" →
         pairWF ("id", fid) = true →
      urlparseM (normalize_storage_url url) =
        ⟨"https", "drive.google.com", "/uc", (urlparseM url).params,
         urlencodeM [("export", "download"), ("id", fid)],
         (urlparseM url).fragment⟩
      ∧ parseQslM (urlparseM (normalize_storage_url url)).query.data =
          [("export", "download"), ("id", fid)]
      ∧ ∀ k, k ≠ "export" → k ≠ "id" →
          lookupD (parseQslM
            (urlparseM (normalize_storage_url url)).query.data) k = none)
    ∧ (occursS "dropbox.com" (toLowerS (urlparseM url).netloc) = false →
       (occursS "onedrive" (toLowerS (urlparseM url).netloc)
         || occursS "1drv.ms" (toLowerS (urlparseM url).netloc)
         || occursS "sharepoint.com" (toLowerS (urlparseM url).netloc)) = false →
       ((occursS "drive.google.com" (toLowerS (urlparseM url).netloc)
          || occursS "docs.google.com" (toLowerS (urlparseM url).netloc)) = false
        ∨ googleFileId (urlparseM url)
            (dictOfPairs (parseQslM (urlparseM url).query.data)) = none
        ∨ googleFileId (urlparseM url)
            (dictOfPairs (parseQslM (urlparseM url).query.data)) = some "") →
      normalize_storage_url url = urlunparseM (urlparseM url)
      ∧ (urlunparseM (urlparseM url) = url → normalize_storage_url url = url)) := by
  have hw := hwf
  simp only [partsWF, Bool.and_eq_true] at hw
  obtain ⟨⟨⟨⟨⟨⟨hsch, hnetc⟩, hpath0⟩, hpathc⟩, hparc⟩, hqc⟩, hpar2⟩ := hw
  have hq' : pairsWF (dictOfPairs (parseQslM (urlparseM url).query.data))
      = true := pairsWF_dictOfPairs hq
  have hnd : (keysOf (dictOfPairs (parseQslM (urlparseM url).query.data))).Nodup :=
    nodup_keysOf_dictOfPairs _
  refine ⟨?_, ?_, ?_, ?_⟩
  -- branch 1: dropbox
  · intro hg1
    have hqset : pairsWF (dictSet
        (dictOfPairs (parseQslM (urlparseM url).query.data)) "dl" "1") = true :=
      pairsWF_dictSet hq' (by decide)
    have hnorm : normalize_storage_url url = urlunparseM
        { urlparseM url with
          netloc := "www.dropbox.com"
          query := urlencodeM (dictSet
            (dictOfPairs (parseQslM (urlparseM url).query.data)) "dl" "1") } := by
      simp only [normalize_storage_url, hg1, if_true]
    have hwf2 : partsWF { urlparseM url with
        netloc := "www.dropbox.com"
        query := urlencodeM (dictSet
          (dictOfPairs (parseQslM (urlparseM url).query.data)) "dl" "1") }
        = true := by
      simp only [partsWF, Bool.and_eq_true]
      exact ⟨⟨⟨⟨⟨⟨hsch, by decide⟩, hpath0⟩, hpathc⟩, hparc⟩,
        urlencode_no_hash hqset⟩, hpar2⟩
    have hrt := urlparse_urlunparse hwf2
      (by show ("www.dropbox.com" : String) ≠ ""; decide)
    rw [hnorm, hrt]
    refine ⟨rfl, ?_, ?_, ?_⟩
    · exact parseQsl_urlencode hqset
    · rw [parseQsl_urlencode hqset]
      exact lookupD_dictSet_self _ _ _
    · intro k hk
      rw [parseQsl_urlencode hqset]
      exact lookupD_dictSet_ne _ _ _ _ hk
  -- branch 2: onedrive / 1drv / sharepoint
  · intro hg1 hg2
    have hqset : pairsWF (dictSet
        (dictOfPairs (parseQslM (urlparseM url).query.data)) "download" "1")
        = true := pairsWF_dictSet hq' (by decide)
    have hnloweq : toLowerS (urlparseM url).netloc ≠ "" := by
      rcases (by simpa using hg2 :
          (occursS "onedrive" (toLowerS (urlparseM url).netloc) = true
          ∨ occursS "1drv.ms" (toLowerS (urlparseM url).netloc) = true)
          ∨ occursS "sharepoint.com" (toLowerS (urlparseM url).netloc) = true)
          with (h | h) | h
      · exact occursS_nonempty h (by decide)
      · exact occursS_nonempty h (by decide)
      · exact occursS_nonempty h (by decide)
    have hnet_ne : (urlparseM url).netloc ≠ "" := toLowerS_nonempty hnloweq
    have hnorm : normalize_storage_url url = urlunparseM
        { urlparseM url with
          query := urlencodeM (dictSet
            (dictOfPairs (parseQslM (urlparseM url).query.data))
            "download" "1") } := by
      simp only [normalize_storage_url, hg1, hg2, Bool.false_eq_true,
        if_false, if_true]
    have hwf2 : partsWF { urlparseM url with
        query := urlencodeM (dictSet
          (dictOfPairs (parseQslM (urlparseM url).query.data))
          "download" "1") } = true := by
      simp only [partsWF, Bool.and_eq_true]
      exact ⟨⟨⟨⟨⟨⟨hsch, hnetc⟩, hpath0⟩, hpathc⟩, hparc⟩,
        urlencode_no_hash hqset⟩, hpar2⟩
    have hrt := urlparse_urlunparse hwf2 hnet_ne
    rw [hnorm, hrt]
    refine ⟨rfl, ?_, ?_, ?_⟩
    · exact parseQsl_urlencode hqset
    · rw [parseQsl_urlencode hqset]
      exact lookupD_dictSet_self _ _ _
    · intro k hk
      rw [parseQsl_urlencode hqset]
      exact lookupD_dictSet_ne _ _ _ _ hk
  -- branch 3: google drive / docs with a non-empty file id
  · intro hg1 hg2 hg3 fid hfid hfidne hfidwf
    have hpw : pairsWF [("export", "download"), ("id", fid)] = true := by
      simp only [pairsWF, List.all_cons, List.all_nil, Bool.and_true]
      rw [hfidwf]
      decide
    have hnorm : normalize_storage_url url = urlunparseM
        ⟨"https", "drive.google.com", "/uc", (urlparseM url).params,
         urlencodeM [("export", "download"), ("id", fid)],
         (urlparseM url).fragment⟩ := by
      simp only [normalize_storage_url, hg1, hg2, hg3, hfid,
        Bool.false_eq_true, if_false, if_true]
      rw [if_pos hfidne]
    have hwf3 : partsWF ⟨"https", "drive.google.com", "/uc",
        (urlparseM url).params,
        urlencodeM [("export", "download"), ("id", fid)],
        (urlparseM url).fragment⟩ = true := by
      simp only [partsWF, Bool.and_eq_true]
      refine ⟨⟨⟨⟨⟨⟨by decide, by decide⟩, by simp⟩, by decide⟩, hparc⟩,
        urlencode_no_hash hpw⟩,
        by simp; exact Or.inr (by decide)⟩
    have hrt := urlparse_urlunparse hwf3
      (by show ("drive.google.com" : String) ≠ ""; decide)
    rw [hnorm, hrt]
    refine ⟨rfl, ?_, ?_⟩
    · exact parseQsl_urlencode hpw
    · intro k hk1 hk2
      rw [parseQsl_urlencode hpw]
      simp [lookupD, Ne.symm hk1, Ne.symm hk2]
  -- branch 4: unrecognized host, or google without a usable (non-empty) file id
  · intro hg1 hg2 hg34
    have hnorm : normalize_storage_url url = urlunparseM (urlparseM url) := by
      rcases hg34 with hg3 | hfid | hfid0
      · simp only [normalize_storage_url, hg1, hg2, hg3,
          Bool.false_eq_true, if_false]
      · by_cases hg3 : (occursS "drive.google.com"
            (toLowerS (urlparseM url).netloc)
            || occursS "docs.google.com"
              (toLowerS (urlparseM url).netloc)) = true
        · simp only [normalize_storage_url, hg1, hg2, hg3, hfid,
            Bool.false_eq_true, if_false, if_true]
        · simp only [Bool.not_eq_true] at hg3
          simp only [normalize_storage_url, hg1, hg2, hg3,
            Bool.false_eq_true, if_false]
      · by_cases hg3 : (occursS "drive.google.com"
            (toLowerS (urlparseM url).netloc)
            || occursS "docs.google.com"
              (toLowerS (urlparseM url).netloc)) = true
        · simp only [normalize_storage_url, hg1, hg2, hg3, hfid0,
            Bool.false_eq_true, if_false, if_true]
          rw [if_neg (by simp)]
        · simp only [Bool.not_eq_true] at hg3
          simp only [normalize_storage_url, hg1, hg2, hg3,
            Bool.false_eq_true, if_false]
    exact ⟨hnorm, fun heq => hnorm.trans heq⟩

/-- Witness for the amended C7 at concrete URLs: a dropbox share link (the
`rlkey` parameter survives and `dl=1` is added) and an unrecognized host
(returned unchanged). -/
theorem c7_normalizer_rewrite_rules_witness :
    (urlparseM (normalize_storage_url
        "https://www.dropbox.com/s/abc/x.mp3?rlkey=k")).netloc
      = "www.dropbox.com"
    ∧ lookupD (parseQslM (urlparseM (normalize_storage_url
        "https://www.dropbox.com/s/abc/x.mp3?rlkey=k")).query.data) "dl"
      = some "1"
    ∧ lookupD (parseQslM (urlparseM (normalize_storage_url
        "https://www.dropbox.com/s/abc/x.mp3?rlkey=k")).query.data) "rlkey"
      = lookupD (dictOfPairs (parseQslM (urlparseM
          "https://www.dropbox.com/s/abc/x.mp3?rlkey=k").query.data)) "rlkey"
    ∧ normalize_storage_url "https://example.com/a/b.mp3?x=1"
      = "https://example.com/a/b.mp3?x=1" := by
  have h1 := c7_normalizer_rewrite_rules
    "https://www.dropbox.com/s/abc/x.mp3?rlkey=k" (by decide) (by decide)
  have h2 := c7_normalizer_rewrite_rules "https://example.com/a/b.mp3?x=1"
    (by decide) (by decide)
  obtain ⟨hb1, _, _, _⟩ := h1
  obtain ⟨hd1, hd2, hd3, hd4⟩ := hb1 (by decide)
  obtain ⟨_, _, _, hu⟩ := h2
  refine ⟨hd1, hd3, hd4 "rlkey" (by decide), ?_⟩
  exact (hu (by decide) (by decide) (Or.inl (by decide))).2 (by decide)

/-- C1. For every job whose conversion process exits with code 0 but
whose expected output file does not exist afterwards, the result is a
Failure record carrying the "output missing" message and the captured
stdout/stderr, never a Success record — in the serverless handler
(`superviseAndAssemble`) and in the pod server (`podClassify`) alike. -/
theorem c1_exit_zero_without_output_is_failure
    (out err : String) (bytes : List Nat) (upload : Except String String)
    (t : Rat) (vid : List Nat) :
    (superviseAndAssemble (.completed 0 out err) false bytes upload t).1 =
      .errorWith "Conversion completed but output file is missing"
        (some out) (some err)
    ∧ ((superviseAndAssemble (.completed 0 out err) false bytes upload t).1).isSuccess
        = false
    ∧ podClassify 0 false out err vid =
        .httpError 500 ⟨0, false, podTail out, podTail err⟩
    ∧ (podClassify 0 false out err vid).isVideo = false := by
  refine ⟨?_, ?_, ?_, ?_⟩ <;>
    simp [superviseAndAssemble, podClassify, HandlerResult.isSuccess,
      PodResponse.isVideo]

/-- C4 counterexample. An upload exception whose string form is empty —
Python's `str(Exception())` is `""` — still takes the fallback branch, and
`upload_error = str(upload_exc)` (runpod_handler.py:402) is then the empty
string: the Success-shaped record's `upload_error` field is present but
empty, refuting "a non-empty upload_error field". -/
theorem c4_counterexample :
    (superviseAndAssemble (.completed 0 "so" "se") true [77, 97, 110]
        (.error "") 60).1 =
      .successB64 "TWFu" (pyRound2 (fileSizeMB [77, 97, 110])) "" "so" "se"
    ∧ ((superviseAndAssemble (.completed 0 "so" "se") true [77, 97, 110]
        (.error "") 60).1).uploadError = some ""
    ∧ ((superviseAndAssemble (.completed 0 "so" "se") true [77, 97, 110]
        (.error "") 60).1).isSuccess = true := by
  have hb : b64encode [77, 97, 110] = "TWFu" := by decide
  refine ⟨?_, rfl, rfl⟩
  show HandlerResult.successB64 (b64encode [77, 97, 110])
      (pyRound2 (fileSizeMB [77, 97, 110])) "" "so" "se" =
    .successB64 "TWFu" (pyRound2 (fileSizeMB [77, 97, 110])) "" "so" "se"
  rw [hb]

/-- C4 (amended). When the render succeeds (exit 0, output present) but the
upload collaborator raises, the handler still returns a Success-shaped
record with the base64-encoded output bytes, the size in MB, the captured
streams, and an `upload_error` field carrying the stringified upload
exception — which is empty exactly when the exception's string form is
empty; upload failure never yields a job Failure record. -/
theorem c4_upload_failure_falls_back_to_inline_success
    (out err : String) (bytes : List Nat) (e : String) (t : Rat) :
    (superviseAndAssemble (.completed 0 out err) true bytes (.error e) t).1 =
      .successB64 (b64encode bytes) (pyRound2 (fileSizeMB bytes)) e out err
    ∧ ((superviseAndAssemble (.completed 0 out err) true bytes (.error e) t).1).isSuccess
        = true
    ∧ ((superviseAndAssemble (.completed 0 out err) true bytes (.error e) t).1).uploadError
        = some e
    ∧ (((superviseAndAssemble (.completed 0 out err) true bytes (.error e) t).1).uploadError
        = some "" ↔ e = "") := by
  refine ⟨rfl, rfl, rfl, ?_⟩
  show (some e = some "") ↔ e = ""
  simp

/-- C5. When the conversion exceeds the caller's timeout, the supervisor
kills the process, drains the remaining buffered output via the second
`communicate()` (runpod_handler.py:319-322), and the handler returns the
timeout error record whose stdout/stderr carry the partial output captured
by the `TimeoutExpired` exception — the drained text itself is read and
discarded (the source binds it but never uses it), so the result is
invariant in it. -/
theorem c5_timeout_kills_drains_and_returns_partial_output
    (pOut pErr : Option String) (dOut dErr : String) (outputExists : Bool)
    (bytes : List Nat) (upload : Except String String) (t : Rat) :
    superviseAndAssemble (.timedOut pOut pErr dOut dErr) outputExists bytes
        upload t =
      (.errorWith (timeoutMsg t) pOut pErr,
       { killed := true, drainedAfterKill := true })
    ∧ ((superviseAndAssemble (.timedOut pOut pErr dOut dErr) outputExists bytes
        upload t).1).isSuccess = false
    ∧ ∀ dOut2 dErr2,
        superviseAndAssemble (.timedOut pOut pErr dOut2 dErr2) outputExists
            bytes upload t
          = superviseAndAssemble (.timedOut pOut pErr dOut dErr) outputExists
              bytes upload t := by
  exact ⟨rfl, rfl, fun _ _ => rfl⟩

/-- C8 counterexample. An HTML body that contains a meta-refresh `url=`
target *and* a bare hint URL, but also a higher-priority script redirect:
the extractor returns the script-redirect target, not the meta-refresh
target, so the claim as stated (quantified over *every* such body) fails. -/
theorem c8_counterexample :
    (searchA p2At ("window.location.href('https://a.example/x.mp3') content=\"0; url=https://meta.example/y\" https://bare.example/z.mp3").data)
        = some ("https://meta.example/y").data
    ∧ (firstHint id (findBareUrls ("window.location.href('https://a.example/x.mp3') content=\"0; url=https://meta.example/y\" https://bare.example/z.mp3").data)).isSome
        = true
    ∧ extract_direct_audio_url id
        "window.location.href('https://a.example/x.mp3') content=\"0; url=https://meta.example/y\" https://bare.example/z.mp3"
        = some "https://a.example/x.mp3"
    ∧ extract_direct_audio_url id
        "window.location.href('https://a.example/x.mp3') content=\"0; url=https://meta.example/y\" https://bare.example/z.mp3"
        ≠ some "https://meta.example/y" := by
  refine ⟨by decide, by decide, by decide, by decide⟩

/-- C8 (amended). For every HTML body containing a meta-refresh `url=`
target and a bare hint URL, *and on which the higher-priority script-redirect
pattern does not match*, the extractor returns the meta-refresh target, not
the bare hint URL: the priority order is respected. -/
theorem c8_meta_refresh_beats_bare_urls
    (clean : String → String) (htmlText : String) (cap : List Char)
    (hp1 : searchA p1At htmlText.data = none)
    (hp2 : searchA p2At htmlText.data = some cap)
    (_hbare : (firstHint clean (findBareUrls htmlText.data)).isSome = true) :
    extract_direct_audio_url clean htmlText = some (clean (String.mk cap)) := by
  simp only [extract_direct_audio_url, hp1, hp2]

/-- Witness for the amended C8: a body with a meta-refresh tag and a bare
`.mp3` URL; the meta-refresh target wins. -/
theorem c8_meta_refresh_beats_bare_urls_witness :
    extract_direct_audio_url id
      "<meta content=\"0; url=https://meta.example/y\"> go https://bare.example/z.mp3"
      = some "https://meta.example/y" :=
  c8_meta_refresh_beats_bare_urls id
    "<meta content=\"0; url=https://meta.example/y\"> go https://bare.example/z.mp3"
    ("https://meta.example/y").data (by decide) (by decide) (by decide)

theorem dataAppend (a b : String) : (a ++ b).data = a.data ++ b.data := rfl

theorem dash_d_ne_wxh (a b : Int) : "-d" ≠ pyStrInt a ++ "x" ++ pyStrInt b := by
  intro h
  have hx : 'x' ∈ ("-d").data := by
    rw [h, dataAppend, dataAppend]
    simp
  simp at hx

theorem timeline_ne_wxh (a b : Int) :
    "--timeline" ≠ pyStrInt a ++ "x" ++ pyStrInt b := by
  intro h
  have hx : 'x' ∈ ("--timeline").data := by
    rw [h, dataAppend, dataAppend]
    simp
  simp at hx

/-- C2. The argument vector produced by either command builder contains
exactly one of the flags `--timeline` and `-d`, never both and never
neither: with a timeline path only `--timeline <path>` is appended,
otherwise only `-d <preset_duration>` with the supplied or defaulted (60)
duration.  The hypotheses only rule out the degenerate configurations in
which a caller-chosen free string (a path, mesh or encoder speed) is itself
literally one of the two flags. -/
theorem c2_timeline_and_duration_mutually_exclusive
    (presetDir textureDir audioPath outputPath : String)
    (envMesh envSpeed : Option String) (tp : Option String) (ji : JobInput)
    (podMesh podSpeed : String) (vw vh fpsP brP pdP : Int)
    (ha : audioPath ≠ "-d" ∧ audioPath ≠ "--timeline")
    (ho : outputPath ≠ "-d" ∧ outputPath ≠ "--timeline")
    (hp : presetDir ≠ "-d" ∧ presetDir ≠ "--timeline")
    (ht : textureDir ≠ "-d" ∧ textureDir ≠ "--timeline")
    (hm : ji.meshR envMesh ≠ "-d" ∧ ji.meshR envMesh ≠ "--timeline")
    (hs : ji.speedR envSpeed ≠ "-d" ∧ ji.speedR envSpeed ≠ "--timeline")
    (hm2 : podMesh ≠ "-d" ∧ podMesh ≠ "--timeline")
    (hs2 : podSpeed ≠ "-d" ∧ podSpeed ≠ "--timeline")
    (htp : ∀ p, tp = some p → p ≠ "-d" ∧ p ≠ "--timeline") :
    ((tp.isSome = true →
        "--timeline" ∈ build_command presetDir textureDir envMesh envSpeed
            audioPath outputPath tp ji
        ∧ "-d" ∉ build_command presetDir textureDir envMesh envSpeed
            audioPath outputPath tp ji)
     ∧ (tp = none →
        "-d" ∈ build_command presetDir textureDir envMesh envSpeed
            audioPath outputPath tp ji
        ∧ "--timeline" ∉ build_command presetDir textureDir envMesh envSpeed
            audioPath outputPath tp ji)
     ∧ (∀ p, tp = some p →
        (build_command presetDir textureDir envMesh envSpeed audioPath
            outputPath tp ji).drop 19 = ["--timeline", p])
     ∧ (tp = none →
        (build_command presetDir textureDir envMesh envSpeed audioPath
            outputPath tp ji).drop 19 =
          ["-d", pyStrInt (ji.preset_duration.getD 60)]))
    ∧ ((tp.isSome = true →
        "--timeline" ∈ pod_build_command presetDir textureDir audioPath
            outputPath podMesh podSpeed vw vh fpsP brP pdP tp
        ∧ "-d" ∉ pod_build_command presetDir textureDir audioPath outputPath
            podMesh podSpeed vw vh fpsP brP pdP tp)
     ∧ (tp = none →
        "-d" ∈ pod_build_command presetDir textureDir audioPath outputPath
            podMesh podSpeed vw vh fpsP brP pdP tp
        ∧ "--timeline" ∉ pod_build_command presetDir textureDir audioPath
            outputPath podMesh podSpeed vw vh fpsP brP pdP tp)
     ∧ (∀ p, tp = some p →
        (pod_build_command presetDir textureDir audioPath outputPath podMesh
            podSpeed vw vh fpsP brP pdP tp).drop 19 = ["--timeline", p])
     ∧ (tp = none →
        (pod_build_command presetDir textureDir audioPath outputPath podMesh
            podSpeed vw vh fpsP brP pdP tp).drop 19 =
          ["-d", pyStrInt pdP])) := by
  rcases tp with _ | p
  · refine ⟨⟨by simp, fun _ => ⟨?_, ?_⟩, by simp, fun _ => by
        simp [build_command]⟩,
      ⟨by simp, fun _ => ⟨?_, ?_⟩, by simp, fun _ => by
        simp [pod_build_command]⟩⟩
    · simp [build_command]
    · simp [build_command, Ne.symm ha.2, Ne.symm ho.2, Ne.symm hp.2,
        Ne.symm ht.2, Ne.symm hm.2, Ne.symm hs.2, timeline_ne_wxh,
        fun n => Ne.symm (pyStrInt_ne_timeline n)]
    · simp [pod_build_command]
    · simp [pod_build_command, Ne.symm ha.2, Ne.symm ho.2, Ne.symm hp.2,
        Ne.symm ht.2, Ne.symm hm2.2, Ne.symm hs2.2, timeline_ne_wxh,
        fun n => Ne.symm (pyStrInt_ne_timeline n)]
  · obtain ⟨hpd, hpt⟩ := htp p rfl
    refine ⟨⟨fun _ => ⟨?_, ?_⟩, by simp, fun p2 hp2 => ?_, by simp⟩,
      ⟨fun _ => ⟨?_, ?_⟩, by simp, fun p2 hp2 => ?_, by simp⟩⟩
    · simp [build_command]
    · simp [build_command, Ne.symm ha.1, Ne.symm ho.1, Ne.symm hp.1,
        Ne.symm ht.1, Ne.symm hm.1, Ne.symm hs.1, dash_d_ne_wxh,
        Ne.symm hpd, fun n => Ne.symm (pyStrInt_ne_dash_d n)]
    · cases hp2
      simp [build_command]
    · simp [pod_build_command]
    · simp [pod_build_command, Ne.symm ha.1, Ne.symm ho.1, Ne.symm hp.1,
        Ne.symm ht.1, Ne.symm hm2.1, Ne.symm hs2.1, dash_d_ne_wxh,
        Ne.symm hpd, fun n => Ne.symm (pyStrInt_ne_dash_d n)]
    · cases hp2
      simp [pod_build_command]

/-- Witness for C2 at a concrete configuration (both the timeline and the
duration branch, over both builders). -/
theorem c2_timeline_and_duration_mutually_exclusive_witness :
    ("--timeline" ∈ build_command "/p" "/t" none none "/a.mp3" "/o.mp4"
        (some "/tmp/timeline.ini") {}
     ∧ "-d" ∉ build_command "/p" "/t" none none "/a.mp3" "/o.mp4"
        (some "/tmp/timeline.ini") {})
    ∧ ("-d" ∈ pod_build_command "/p" "/t" "/a.mp3" "/o.mp4" "320x240"
        "veryfast" 1920 1080 60 8000 60 none
     ∧ "--timeline" ∉ pod_build_command "/p" "/t" "/a.mp3" "/o.mp4" "320x240"
        "veryfast" 1920 1080 60 8000 60 none) := by
  have h1 := c2_timeline_and_duration_mutually_exclusive "/p" "/t" "/a.mp3"
    "/o.mp4" none none (some "/tmp/timeline.ini") {} "320x240" "veryfast"
    1920 1080 60 8000 60 (by decide) (by decide) (by decide) (by decide)
    (by decide) (by decide) (by decide) (by decide)
    (fun p hp => by cases hp; exact ⟨by decide, by decide⟩)
  have h2 := c2_timeline_and_duration_mutually_exclusive "/p" "/t" "/a.mp3"
    "/o.mp4" none none none {} "320x240" "veryfast"
    1920 1080 60 8000 60 (by decide) (by decide) (by decide) (by decide)
    (by decide) (by decide) (by decide) (by decide)
    (fun p hp => by cases hp)
  exact ⟨h1.1.1 rfl, h2.2.2.1 rfl⟩

/-- C10. In the serverless handler, a falsy `timeout_sec` (absent,
`None`, `0`, `0.0`, `""`, `False`) is silently replaced by the process-wide
default (10800 seconds unless the environment overrides it); a truthy value
is coerced with `float`, and an invalid coercion raises. -/
theorem c10_falsy_timeout_replaced_by_default
    (dflt : Rat) (v : PyVal) (hv : truthy v = true) :
    resolve_timeout v dflt = pyFloat v
    ∧ (∀ d2 : Rat,
        resolve_timeout .vnone d2 = .ok d2
        ∧ resolve_timeout (.vint 0) d2 = .ok d2
        ∧ resolve_timeout (.vfloat 0) d2 = .ok d2
        ∧ resolve_timeout (.vstr "") d2 = .ok d2
        ∧ resolve_timeout (.vbool false) d2 = .ok d2)
    ∧ DEFAULT_TIMEOUT_SEC none = .ok 10800
    ∧ (resolve_timeout (.vstr "abc") dflt).isOk = false := by
  refine ⟨by simp [resolve_timeout, hv], fun d2 => ?_, ?_, ?_⟩
  · refine ⟨?_, ?_, ?_, ?_, ?_⟩ <;> simp [resolve_timeout, truthy, pyFloat]
  · simp [DEFAULT_TIMEOUT_SEC, pyFloat, parsePyFloat, parseDigits, splitFirst]
  · simp [resolve_timeout, truthy, pyFloat, parsePyFloat, parseDigits,
      splitFirst, Except.isOk, Except.toBool]

/-- Witness for C10 at the truthy value `5.0`. -/
theorem c10_falsy_timeout_replaced_by_default_witness :
    resolve_timeout (.vfloat 5) 1 = pyFloat (.vfloat 5)
    ∧ resolve_timeout (.vint 0) 1 = .ok 1 :=
  ⟨(c10_falsy_timeout_replaced_by_default 1 (.vfloat 5) (by decide)).1,
   ((c10_falsy_timeout_replaced_by_default 1 (.vfloat 5) (by decide)).2.1 1).2.1⟩

/-- Helper for C3: if every fetched response is a non-error non-audio page
from which the extractor still produces a candidate, the loop burns all its
fuel and fails with the "could not resolve" error, leaving no file. -/
theorem downloadAux_all_html
    (net : String → HttpResponse) (decode : List Nat → String)
    (clean : String → String)
    (h : ∀ u, (net u).status < 400
        ∧ isAudioCT (net u).contentType = false
        ∧ (extract_direct_audio_url clean (decode (net u).body)).isSome = true) :
    ∀ (fuel : Nat) (url : String) (evs : List FileEvent),
      downloadAux net decode clean fuel url evs =
        ⟨.convError "Could not resolve remote audio after multiple attempts.",
         none, evs⟩ := by
  intro fuel
  induction fuel with
  | zero => intro url evs; rfl
  | succ n ih =>
    intro url evs
    obtain ⟨h1, h2, h3⟩ := h url
    obtain ⟨nextUrl, hnext⟩ := Option.isSome_iff_exists.mp h3
    have hstep : downloadAux net decode clean (n + 1) url evs =
        downloadAux net decode clean n nextUrl evs := by
      simp [downloadAux, Nat.not_le.mpr h1, h2, hnext]
    rw [hstep]
    exact ih nextUrl evs

/-- C3. The remote-audio fetch loop performs at most 4 iterations: when
every iteration yields a non-audio (HTML) response that still produces a new
candidate URL, the fetcher terminates with the classified error
"Could not resolve remote audio after multiple attempts." rather than
looping further or crashing (the embedding is a total function). -/
theorem c3_redirect_chain_bounded_at_four
    (net : String → HttpResponse) (decode : List Nat → String)
    (clean : String → String) (url : String)
    (h : ∀ u, (net u).status < 400
        ∧ isAudioCT (net u).contentType = false
        ∧ (extract_direct_audio_url clean (decode (net u).body)).isSome = true) :
    download_from_url net decode clean url =
      ⟨.convError "Could not resolve remote audio after multiple attempts.",
       none, []⟩ :=
  downloadAux_all_html net decode clean h 4 (normalize_storage_url url) []

/-- Witness for C3: a server that always answers 200/`text/html` with a page
whose only lead is a bare `.mp3` URL — after 4 hops the fetcher fails with
the "could not resolve" error. -/
theorem c3_redirect_chain_bounded_at_four_witness :
    download_from_url (fun _ => ⟨200, "text/html", [104]⟩)
      (fun _ => "see https://files.example/song.mp3") id
      "http://start.example/a" =
      ⟨.convError "Could not resolve remote audio after multiple attempts.",
       none, []⟩ :=
  c3_redirect_chain_bounded_at_four _ _ _ _
    (fun _ => ⟨by decide, by decide, by decide⟩)

/-- Helper for C6: on every path of the fetch loop, either it succeeds and
the destination file holds the non-empty downloaded bytes, or it fails and
no file is left behind. -/
theorem downloadAux_file_invariant
    (net : String → HttpResponse) (decode : List Nat → String)
    (clean : String → String) :
    ∀ (fuel : Nat) (url : String) (evs : List FileEvent),
      ((downloadAux net decode clean fuel url evs).outcome = .ok →
        ∃ bs, (downloadAux net decode clean fuel url evs).file = some bs
          ∧ bs ≠ [])
      ∧ ((downloadAux net decode clean fuel url evs).outcome ≠ .ok →
        (downloadAux net decode clean fuel url evs).file = none) := by
  intro fuel
  induction fuel with
  | zero =>
    intro url evs
    exact ⟨fun hok => by simp [downloadAux] at hok, fun _ => rfl⟩
  | succ n ih =>
    intro url evs
    by_cases hst : 400 ≤ (net url).status
    · simp [downloadAux, hst]
    · by_cases hau : isAudioCT (net url).contentType
      · by_cases hlen : (net url).body.length = 0
        · simp [downloadAux, hst, hau, hlen]
        · refine ⟨fun _ => ⟨(net url).body, ?_, ?_⟩, fun hno => ?_⟩
          · simp [downloadAux, hst, hau, hlen]
          · intro hnil; exact hlen (by simp [hnil])
          · exact absurd (by simp [downloadAux, hst, hau, hlen]) hno
      · match hext : extract_direct_audio_url clean (decode (net url).body) with
        | some nextUrl =>
          have hstep : downloadAux net decode clean (n + 1) url evs =
              downloadAux net decode clean n nextUrl evs := by
            simp [downloadAux, hst, hau, hext]
          rw [hstep]
          exact ih nextUrl evs
        | none => simp [downloadAux, hst, hau, hext]

/-- C6. A download that succeeds with an audio content type but streams
zero bytes deletes the created file and fails with the classified
"empty file" download error; and in general, after any fetch either the
destination file exists with non-zero size (success) or no file is left
behind (failure). -/
theorem c6_zero_byte_download_deletes_file
    (net : String → HttpResponse) (decode : List Nat → String)
    (clean : String → String) (url : String)
    (h1 : (net (normalize_storage_url url)).status < 400)
    (h2 : isAudioCT (net (normalize_storage_url url)).contentType = true)
    (h3 : (net (normalize_storage_url url)).body = []) :
    download_from_url net decode clean url =
      ⟨.convError "Remote download returned an empty file.", none,
       [.wrote 0, .unlinked]⟩
    ∧ ∀ (net2 : String → HttpResponse) (decode2 : List Nat → String)
        (clean2 : String → String) (url2 : String),
        ((download_from_url net2 decode2 clean2 url2).outcome = .ok →
          ∃ bs, (download_from_url net2 decode2 clean2 url2).file = some bs
            ∧ bs ≠ [])
        ∧ ((download_from_url net2 decode2 clean2 url2).outcome ≠ .ok →
          (download_from_url net2 decode2 clean2 url2).file = none) := by
  constructor
  · unfold download_from_url
    simp [downloadAux, Nat.not_le.mpr h1, h2, h3]
  · intro net2 decode2 clean2 url2
    exact downloadAux_file_invariant net2 decode2 clean2 4
      (normalize_storage_url url2) []

/-- Witness for C6: a server that answers a zero-byte `audio/mpeg` body. -/
theorem c6_zero_byte_download_deletes_file_witness :
    download_from_url (fun _ => ⟨200, "audio/mpeg", []⟩) (fun _ => "") id
      "http://h.example/a.mp3" =
      ⟨.convError "Remote download returned an empty file.", none,
       [.wrote 0, .unlinked]⟩ :=
  (c6_zero_byte_download_deletes_file _ _ _ _ (by decide) (by decide)
    (by decide)).1

end ProjectM
